import Mathlib

/-!
# crawlalyzer: the fingerprint analyzer and the concurrent crawler

A shallow embedding of `analyzer/analyzer.go`, `analyzer/datatypes.go` and
`crawl/crawler.go`.

* Go maps used as maps (`map[string]string`, `map[string]technology`) are
  association lists; a `range` loop visits the entries in list order, and the
  theorems hold for every order.
* Go maps used as sets (`map[K]struct{}`) are `Finset`s.
* Everything the program calls in the Go standard library (`regexp`,
  `net/http`, `net/url`, `encoding/json`, `x/net/html`) is a parameter: the
  record `Lib` for the pure functions, the record `World` for the network.
-/

namespace Crawlalyzer

/-! ## Standard-library interface -/

/-- The fields of `url.URL` the program reads or compares. -/
structure URL where
  Scheme : String
  Host : String
  Path : String
  RawQuery : String
  Fragment : String
deriving DecidableEq, Repr

/-- The pure standard-library functions the program calls. -/
structure Lib where
  /-- `*regexp.Regexp`. -/
  Regexp : Type
  /-- `regexp.Compile`: `none` when it returns an error. -/
  Compile : String → Option Regexp
  /-- `(*Regexp).FindStringSubmatch`: the empty list is Go's `nil`. -/
  FindStringSubmatch : Regexp → String → List String
  /-- `textproto.CanonicalMIMEHeaderKey`, applied by `http.Header.Values`. -/
  CanonicalMIMEHeaderKey : String → String
  /-- `url.Parse`: `none` when it returns an error. -/
  Parse : String → Option URL
  /-- `(*url.URL).ResolveReference`, receiver first. -/
  ResolveReference : URL → URL → URL
  /-- `(*url.URL).String`. -/
  URLString : URL → String
  /-- `json.Unmarshal(b, &slice)` for a `[]string` that starts empty: the
  slice afterwards (the program drops the error). -/
  UnmarshalStrings : String → List String

/-- `html.Attribute`. -/
structure Attribute where
  Key : String
  Val : String
deriving DecidableEq, Repr

/-- `html.NodeType`. -/
inductive NodeType where
  | ErrorNode | TextNode | DocumentNode | ElementNode | CommentNode | DoctypeNode
deriving DecidableEq, Repr

/-- `html.Node`: `children` is the chain `FirstChild`, `NextSibling`, ... ;
a nil `*html.Node` is `none`. -/
inductive Node where
  | mk (Type_ : NodeType) (Data : String) (Attr : List Attribute) (children : List Node) : Node

/-- `http.Header`: canonical key to values. -/
abbrev Header := List (String × List String)

/-- `http.Header.Values`. -/
def Header.Values (lib : Lib) (h : Header) (key : String) : List String :=
  (h.lookup (lib.CanonicalMIMEHeaderKey key)).getD []

/-- The fields of `http.Cookie` that matter here. -/
structure Cookie where
  Name : String
  Value : String
  Path : String
  Domain : String
deriving DecidableEq, Repr

/-! ## analyzer/datatypes.go -/

structure category where
  Name : String
deriving DecidableEq, Repr

/-- `singleOrArray.UnmarshalJSON`: `s` is the receiver's value before the
call, `b` the JSON fragment (its first byte is `[` exactly when its first
character is). -/
def singleOrArray.UnmarshalJSON (lib : Lib) (s : List String) (b : String) :
    Except String (List String) :=
  if b.data.length = 0 then
    .error "no bytes to unmarshal"
  else if b.data.head? = some '[' then
    .ok (lib.UnmarshalStrings b)
  else
    .ok (s ++ [b])

structure technology where
  Cats : List Int
  Description : String
  Cookies : List (String × String)
  Headers : List (String × String)
  Website : String
  JS : List (String × String)
  HTML : List String
  Scripts : List String
  Excludes : List String
  Implies : List String
  CSS : List String

structure technologyPrints where
  Categories : List (String × category)
  Technologies : List (String × technology)

/-! ## analyzer/analyzer.go -/

structure DetectedTechnology where
  Name : String
  Description : String
  Website : String
deriving DecidableEq, Repr

@[ext]
structure Result where
  DetectedTechnologies : Finset DetectedTechnology
  Implies : Finset String
  Excludes : Finset String
  Categories : Finset String

/-- The `Result` of four freshly made maps. -/
def Result.empty : Result := ⟨∅, ∅, ∅, ∅⟩

/-- `crawl.Response`. -/
structure Response where
  body : Option Node
  StartURL : URL
  URL : URL
  HTML : String
  Headers : Header
  Cookies : List Cookie
  ScriptLinks : List String
  Scripts : List String
  Styles : List String

/-- `len(re.FindStringSubmatch(val)) > 0`. -/
def found (lib : Lib) (re : lib.Regexp) (val : String) : Bool :=
  decide (0 < (lib.FindStringSubmatch re val).length)

def getValues (m : List (String × String)) : List String :=
  (m.map Prod.snd).filter (fun v => v ≠ "")

def matchHeaders (lib : Lib) (toMatch : List (String × String)) (h : Header) : Bool :=
  match toMatch with
  | [] => false
  | (k, v) :: rest =>
    let values := Header.Values lib h k
    if 0 < values.length then
      if v = "" then true
      else
        match lib.Compile v with
        | none => matchHeaders lib rest h
        | some re =>
          if values.any (fun val => found lib re val) then true
          else matchHeaders lib rest h
    else matchHeaders lib rest h

def matchCookies (lib : Lib) (toMatch : List (String × String)) (c : List Cookie) : Bool :=
  match c with
  | [] => false
  | cookie :: rest =>
    match toMatch.lookup cookie.Name with
    | none => matchCookies lib toMatch rest
    | some val =>
      if val = "" then true
      else
        match lib.Compile val with
        | none => matchCookies lib toMatch rest
        | some re =>
          if found lib re cookie.Name then true
          else matchCookies lib toMatch rest

def matchSlice (lib : Lib) (toMatch : List String) (values : List String) : Bool :=
  match toMatch with
  | [] => false
  | m :: rest =>
    match lib.Compile m with
    | none => matchSlice lib rest values
    | some re =>
      if values.any (fun val => found lib re val) then true
      else matchSlice lib rest values

def matchSingle (lib : Lib) (toMatch : List String) (value : String) : Bool :=
  matchSlice lib toMatch [value]

/-- `strconv.Itoa`. -/
def Itoa (c : Int) : String := toString c

def addToResult (data : technologyPrints) (name : String) (t : technology)
    (res : Result) : Result :=
  let tech : DetectedTechnology := ⟨name, t.Description, t.Website⟩
  { DetectedTechnologies := insert tech res.DetectedTechnologies
    Categories := t.Cats.foldl
      (fun acc c => insert ((data.Categories.lookup (Itoa c)).getD ⟨""⟩).Name acc)
      res.Categories
    Implies := t.Implies.foldl (fun acc i => insert i acc) res.Implies
    Excludes := t.Excludes.foldl (fun acc e => insert e acc) res.Excludes }

/-- One iteration of the loop of `analyzeSingle`. -/
def analyzeTechnology (lib : Lib) (data : technologyPrints) (response : Response)
    (res : Result) (name : String) (t : technology) : Result :=
  if matchHeaders lib t.Headers response.Headers then addToResult data name t res
  else if matchCookies lib t.Cookies response.Cookies then addToResult data name t res
  else if matchSlice lib t.Scripts response.ScriptLinks then addToResult data name t res
  else if matchSlice lib (getValues t.JS) response.Scripts then addToResult data name t res
  else if matchSingle lib t.HTML response.HTML then addToResult data name t res
  else if matchSlice lib t.CSS response.Styles then addToResult data name t res
  else res

def analyzeSingle (lib : Lib) (data : technologyPrints) (response : Response) : Result :=
  data.Technologies.foldl
    (fun res nt => analyzeTechnology lib data response res nt.1 nt.2) Result.empty

/-- The aggregate `webAnalyzer.result`, a `map[string]Result`. -/
abbrev Aggregate := String → Option Result

def addToFinalResult (lib : Lib) (result : Aggregate) (rootURL : URL) (res : Result) :
    Aggregate :=
  let urlString := lib.URLString rootURL
  let cur := (result urlString).getD Result.empty
  Function.update result urlString (some
    { DetectedTechnologies := cur.DetectedTechnologies ∪ res.DetectedTechnologies
      Categories := cur.Categories ∪ res.Categories
      Implies := cur.Implies ∪ res.Implies
      Excludes := cur.Excludes ∪ res.Excludes })

def Analyze (lib : Lib) (data : technologyPrints) (result : Aggregate)
    (response : Response) : Aggregate :=
  addToFinalResult lib result response.StartURL (analyzeSingle lib data response)

/-! ## crawl/crawler.go -/

structure crawledLink where
  currentLink : URL
  startURL : URL
deriving DecidableEq, Repr

/-- A channel of values: `waiting` holds what was sent and not received yet,
`sent` everything ever sent, oldest first. -/
structure Chan (α : Type) where
  waiting : List α
  sent : List α

def Chan.send {α : Type} (ch : Chan α) (x : α) : Chan α :=
  ⟨ch.waiting ++ [x], ch.sent ++ [x]⟩

/-- The receiver takes the waiting value at position `i`. -/
def Chan.receive {α : Type} (ch : Chan α) (i : Nat) : Chan α :=
  ⟨ch.waiting.eraseIdx i, ch.sent⟩

/-- The fields of `concurrentCrawler` but the cancellation context.
`semaphore` is the number of permits held, `len(c.semaphore)`, and
`maxGoroutines` the capacity of that channel. -/
structure concurrentCrawler where
  semaphore : Nat
  maxGoroutines : Nat
  visited : Finset URL
  pendingLinks : Chan crawledLink
  followExternalLinks : Bool

def NewConcurrentCrawler (maxGoroutines : Nat) (followExternalLinks : Bool) :
    concurrentCrawler :=
  { semaphore := 0
    maxGoroutines := maxGoroutines
    visited := ∅
    pendingLinks := ⟨[], []⟩
    followExternalLinks := followExternalLinks }

/-- What one `http.Get` returns, with the outcome of each read the program
makes of its body. -/
structure HTTPResponse where
  Header : Header
  /-- `r.Cookies()`. -/
  Cookies : List Cookie
  /-- `html.Parse(r.Body)`: `none` when it returns an error. -/
  Parsed : Option Node
  /-- `ioutil.ReadAll(r.Body)` after `html.Parse`: `none` on error. -/
  Rest : Option String
  /-- `ioutil.ReadAll(resp.Body)` on the untouched body: `none` on error. -/
  Content : Option String

/-- The network during one call of `crawlLink`. -/
structure World where
  /-- `http.Get`: `none` when it returns an error. -/
  Get : String → Option HTTPResponse

/-- `readContent`: `none` is a non-nil error. -/
def readContent (lib : Lib) (w : World) (link : String) (baseURL : URL) : Option String :=
  match lib.Parse link with
  | none => some ""
  | some parsed =>
    let parsed := if parsed.Host = "" then lib.ResolveReference baseURL parsed else parsed
    match w.Get (lib.URLString parsed) with
    | none => none
    | some resp => resp.Content

/-- The loop over the attributes of a `script` node in `getResources`. -/
def getResourcesScript (lib : Lib) (w : World) (baseURL : URL) :
    List Attribute → List String × List String → List String × List String
  | [], acc => acc
  | a :: rest, acc =>
    if a.Key = "src" then
      match readContent lib w a.Val baseURL with
      | none => acc
      | some script =>
        getResourcesScript lib w baseURL rest (acc.1 ++ [a.Val], acc.2 ++ [script])
    else getResourcesScript lib w baseURL rest acc

/-- The loop over the attributes of a stylesheet `link` node in `getResources`. -/
def getResourcesStyle (lib : Lib) (w : World) (baseURL : URL) :
    List Attribute → List String → List String
  | [], styles => styles
  | a :: rest, styles =>
    if a.Key = "href" then
      match readContent lib w a.Val baseURL with
      | none => styles
      | some style => getResourcesStyle lib w baseURL rest (styles ++ [style])
    else getResourcesStyle lib w baseURL rest styles

mutual
/-- The body of `getResources` for a non-nil node; the accumulator is
`(scriptLinks, scripts, styles)`. -/
def getResourcesNode (lib : Lib) (w : World) (baseURL : URL) :
    Node → List String × List String × List String → List String × List String × List String
  | .mk ty data attr children, (scriptLinks, scripts, styles) =>
    let ss :=
      if data = "script" then getResourcesScript lib w baseURL attr (scriptLinks, scripts)
      else (scriptLinks, scripts)
    let styles :=
      if ty = NodeType.ElementNode ∧ data = "link" then
        if attr.any (fun a => decide (a.Key = "rel" ∧ a.Val = "stylesheet")) then
          getResourcesStyle lib w baseURL attr styles
        else styles
      else styles
    getResourcesChildren lib w baseURL children (ss.1, ss.2, styles)
/-- The loop over the children in `getResources`. -/
def getResourcesChildren (lib : Lib) (w : World) (baseURL : URL) :
    List Node → List String × List String × List String → List String × List String × List String
  | [], acc => acc
  | ch :: rest, acc =>
    getResourcesChildren lib w baseURL rest (getResourcesNode lib w baseURL ch acc)
end

def getResources (lib : Lib) (w : World) (scriptLinks scripts styles : List String)
    (n : Option Node) (baseURL : URL) : List String × List String × List String :=
  match n with
  | none => (scriptLinks, scripts, styles)
  | some n => getResourcesNode lib w baseURL n (scriptLinks, scripts, styles)

/-- `parse`: `none` is a non-nil error. -/
def parse (lib : Lib) (w : World) (c : crawledLink) : Option Response :=
  match w.Get (lib.URLString c.currentLink) with
  | none => none
  | some r =>
    match r.Parsed with
    | none => none
    | some b =>
      let res := getResources lib w [] [] [] (some b) c.currentLink
      match r.Rest with
      | none => none
      | some bytes =>
        some
          { StartURL := c.startURL
            URL := c.currentLink
            body := some b
            Headers := r.Header
            Cookies := r.Cookies
            HTML := bytes
            ScriptLinks := res.1
            Scripts := res.2.1
            Styles := res.2.2 }

def IsVisited (c : concurrentCrawler) (url : URL) : Bool :=
  decide (url ∈ c.visited)

def addIfUnvisited (c : concurrentCrawler) (l : URL) (links : List URL) :
    concurrentCrawler × List URL :=
  if !IsVisited c l then
    ({ c with visited := insert l c.visited }, links ++ [l])
  else
    (c, links)

/-- The loop over the attributes of an `a` node in `getLinks`. -/
def getLinksAttr (lib : Lib) (baseURL startURL : URL) :
    List Attribute → concurrentCrawler × List URL → concurrentCrawler × List URL
  | [], st => st
  | a :: rest, st =>
    if a.Key = "href" then
      match lib.Parse a.Val with
      | none => st
      | some link =>
        let link := if link.Host = "" then lib.ResolveReference baseURL link else link
        if st.1.followExternalLinks || decide (link.Host = startURL.Host) then
          getLinksAttr lib baseURL startURL rest (addIfUnvisited st.1 link st.2)
        else getLinksAttr lib baseURL startURL rest st
    else getLinksAttr lib baseURL startURL rest st

mutual
/-- The body of `getLinks` for a non-nil node. -/
def getLinksNode (lib : Lib) (baseURL startURL : URL) :
    Node → concurrentCrawler × List URL → concurrentCrawler × List URL
  | .mk ty data attr children, st =>
    let st :=
      if ty = NodeType.ElementNode ∧ data = "a" then getLinksAttr lib baseURL startURL attr st
      else st
    getLinksChildren lib baseURL startURL children st
/-- The loop over the children in `getLinks`. -/
def getLinksChildren (lib : Lib) (baseURL startURL : URL) :
    List Node → concurrentCrawler × List URL → concurrentCrawler × List URL
  | [], st => st
  | ch :: rest, st =>
    getLinksChildren lib baseURL startURL rest (getLinksNode lib baseURL startURL ch st)
end

def getLinks (lib : Lib) (c : concurrentCrawler) (links : List URL) (n : Option Node)
    (baseURL startURL : URL) : concurrentCrawler × List URL :=
  match n with
  | none => (c, links)
  | some n => getLinksNode lib baseURL startURL n (c, links)

/-- The sends of the last loop of `crawlLink`. -/
def sendLinks (c : concurrentCrawler) (startURL : URL) : List URL → concurrentCrawler
  | [] => c
  | li :: rest =>
    sendLinks { c with pendingLinks := c.pendingLinks.send ⟨li, startURL⟩ } startURL rest

/-- `crawlLink`, run to its return in one piece: the crawler afterwards and
the response handed to `onResp`, if any. Two calls share the visited set,
under its mutex, and the two channels only; they are taken one after the
other here. -/
def crawlLink (lib : Lib) (w : World) (c : concurrentCrawler) (link : crawledLink) :
    concurrentCrawler × Option Response :=
  let c := { c with semaphore := c.semaphore + 1 }
  match parse lib w link with
  | none => (c, none)
  | some r =>
    let (c, links) := getLinks lib c [] r.body r.URL r.StartURL
    let c := sendLinks c link.startURL links
    ({ c with semaphore := c.semaphore - 1 }, some r)

/-- A run of `Crawl` up to some moment: the crawler, the seeds the injecting
goroutine has not reached yet, and the responses handed to `onResp` so far,
oldest first. -/
structure Run where
  c : concurrentCrawler
  urls : List String
  delivered : List Response

/-- What happens next in a run. -/
inductive Event where
  /-- The injecting goroutine of `Crawl` makes one round of its loop. -/
  | seed : Event
  /-- The dispatch loop receives the waiting value at position `i` and
  `crawlLink` runs on it in the world `w`. -/
  | crawl (i : Nat) (w : World) : Event

/-- One round of the loop of the goroutine of `Crawl` that injects the seeds. -/
def injectSeed (lib : Lib) (r : Run) : Run :=
  match r.urls with
  | [] => r
  | u :: rest =>
    match lib.Parse u with
    | some parsed =>
      { r with
        c := { r.c with pendingLinks := r.c.pendingLinks.send ⟨parsed, parsed⟩ }
        urls := rest }
    | none => { r with urls := rest }

/-- One round of the dispatch loop of `Crawl`; nothing happens when no value
waits at position `i` or no permit is free. -/
def dispatch (lib : Lib) (r : Run) (i : Nat) (w : World) : Run :=
  match r.c.pendingLinks.waiting.get? i with
  | none => r
  | some l =>
    if r.c.semaphore < r.c.maxGoroutines then
      let c := { r.c with pendingLinks := r.c.pendingLinks.receive i }
      let out := crawlLink lib w c l
      { r with c := out.1, delivered := r.delivered ++ out.2.toList }
    else r

def step (lib : Lib) (r : Run) : Event → Run
  | .seed => injectSeed lib r
  | .crawl i w => dispatch lib r i w

/-- `Crawl` up to the stop signal, the events of `schedule` having happened. -/
def Crawl (lib : Lib) (c : concurrentCrawler) (urls : List String)
    (schedule : List Event) : Run :=
  schedule.foldl (step lib) ⟨c, urls, []⟩

/-! ## An executable instance of the interface

A small instance of `Lib` on which the definitions above can be run:
regular expressions of a fragment of the RE2 syntax (literals, `.`, bracket
classes, groups, `|`, `*`, `+`, `?`), matched by derivatives; URLs of the
shape `scheme://host/path?query#fragment`; JSON arrays of plain strings.
No theorem about the program depends on it: it serves to evaluate them. -/

/-- Regular expressions over characters; a class is a list of inclusive
ranges, negated or not. -/
inductive RE where
  | none : RE
  | eps : RE
  | cls (neg : Bool) (ranges : List (Char × Char)) : RE
  | cat (a b : RE) : RE
  | alt (a b : RE) : RE
  | star (a : RE) : RE
deriving DecidableEq, Repr

def RE.inClass (neg : Bool) (ranges : List (Char × Char)) (c : Char) : Bool :=
  (ranges.any (fun r => decide (r.1.toNat ≤ c.toNat) && decide (c.toNat ≤ r.2.toNat))) != neg

def RE.nullable : RE → Bool
  | .none => false
  | .eps => true
  | .cls _ _ => false
  | .cat a b => a.nullable && b.nullable
  | .alt a b => a.nullable || b.nullable
  | .star _ => true

/-- The Brzozowski derivative. -/
def RE.deriv (c : Char) : RE → RE
  | .none => .none
  | .eps => .none
  | .cls neg ranges => if RE.inClass neg ranges c then .eps else .none
  | .cat a b =>
    if a.nullable then .alt (.cat (a.deriv c) b) (b.deriv c) else .cat (a.deriv c) b
  | .alt a b => .alt (a.deriv c) (b.deriv c)
  | .star a => .cat (a.deriv c) (.star a)

/-- Some prefix of the input is in the language. -/
def RE.matchesAtStart (r : RE) : List Char → Bool
  | [] => r.nullable
  | c :: cs => r.nullable || (r.deriv c).matchesAtStart cs

/-- Some substring of the input is in the language. -/
def RE.matchesSomewhere (r : RE) : List Char → Bool
  | [] => r.nullable
  | c :: cs => r.matchesAtStart (c :: cs) || r.matchesSomewhere cs

/-- The characters with a meaning of their own in a pattern. -/
def RE.isSpecial (c : Char) : Bool :=
  c = '(' || c = ')' || c = '[' || c = ']' || c = '|' || c = '*' || c = '+' || c = '?' ||
  c = '.' || c = '\\' || c = '^' || c = '$' || c.toNat = 123 || c.toNat = 125

/-- The items of a bracket class up to the closing bracket. -/
def RE.parseClassItems :
    List Char → List (Char × Char) → Option (List (Char × Char) × List Char)
  | [], _ => Option.none
  | ']' :: rest, acc => some (acc.reverse, rest)
  | '\\' :: c :: rest, acc => RE.parseClassItems rest ((c, c) :: acc)
  | a :: '-' :: ']' :: rest, acc => some ((('-', '-') :: (a, a) :: acc).reverse, rest)
  | a :: '-' :: b :: rest, acc => RE.parseClassItems rest ((a, b) :: acc)
  | a :: rest, acc => RE.parseClassItems rest ((a, a) :: acc)

/-- The postfix operators after an atom. -/
def RE.parseRepeat (r : RE) : List Char → RE × List Char
  | '*' :: rest => RE.parseRepeat (.star r) rest
  | '+' :: rest => RE.parseRepeat (.cat r (.star r)) rest
  | '?' :: rest => RE.parseRepeat (.alt r .eps) rest
  | cs => (r, cs)

mutual
/-- An alternation: concatenations separated by bars. -/
def RE.parseAlt : Nat → List Char → Option (RE × List Char)
  | 0, _ => Option.none
  | fuel + 1, cs =>
    match RE.parseCat fuel .eps cs with
    | some (r, '|' :: rest) =>
      match RE.parseAlt fuel rest with
      | some (r2, rest2) => some (.alt r r2, rest2)
      | Option.none => Option.none
    | other => other
/-- A concatenation of repeated atoms, up to a bar, a closing parenthesis or
the end. -/
def RE.parseCat : Nat → RE → List Char → Option (RE × List Char)
  | 0, _, _ => Option.none
  | _ + 1, acc, [] => some (acc, [])
  | _ + 1, acc, '|' :: rest => some (acc, '|' :: rest)
  | _ + 1, acc, ')' :: rest => some (acc, ')' :: rest)
  | fuel + 1, acc, cs =>
    match RE.parseAtom fuel cs with
    | some (r, rest) =>
      match RE.parseRepeat r rest with
      | (r2, rest2) => RE.parseCat fuel (.cat acc r2) rest2
    | Option.none => Option.none
/-- One atom: a group, a bracket class, a dot, an escaped or a plain
character. A group that opens with a question mark is accepted only as the
non-capturing `(?:`. -/
def RE.parseAtom : Nat → List Char → Option (RE × List Char)
  | 0, _ => Option.none
  | _ + 1, [] => Option.none
  | fuel + 1, '(' :: '?' :: ':' :: rest =>
    match RE.parseAlt fuel rest with
    | some (r, ')' :: rest2) => some (r, rest2)
    | _ => Option.none
  | _ + 1, '(' :: '?' :: _ => Option.none
  | fuel + 1, '(' :: rest =>
    match RE.parseAlt fuel rest with
    | some (r, ')' :: rest2) => some (r, rest2)
    | _ => Option.none
  | _ + 1, '[' :: '^' :: rest =>
    match RE.parseClassItems rest [] with
    | some (ranges, rest2) => some (.cls true ranges, rest2)
    | Option.none => Option.none
  | _ + 1, '[' :: rest =>
    match RE.parseClassItems rest [] with
    | some (ranges, rest2) => some (.cls false ranges, rest2)
    | Option.none => Option.none
  | _ + 1, '.' :: rest => some (.cls true [('\n', '\n')], rest)
  | _ + 1, '\\' :: c :: rest =>
    if RE.isSpecial c || c = '/' || c = '-' then some (.cls false [(c, c)], rest)
    else Option.none
  | _ + 1, c :: rest =>
    if RE.isSpecial c then Option.none else some (.cls false [(c, c)], rest)
end

def RE.compile (pattern : String) : Option RE :=
  match RE.parseAlt (3 * pattern.data.length + 3) pattern.data with
  | some (r, []) => some r
  | _ => Option.none

/-- One text when the pattern matches somewhere in `s`, none otherwise (the
texts of the groups are left out). -/
def RE.find (r : RE) (s : String) : List String :=
  if r.matchesSomewhere s.data then [s] else []

/-- The bytes `textproto` accepts in a header field name. -/
def validHeaderFieldByte (c : Char) : Bool :=
  c.isAlphanum || [33, 35, 36, 37, 38, 39, 42, 43, 45, 46, 94, 95, 96, 124, 126].contains c.toNat

def canonicalKeyAux : Bool → List Char → List Char
  | _, [] => []
  | upper, c :: rest =>
    (if upper then c.toUpper else c.toLower) :: canonicalKeyAux (c = '-') rest

def canonicalKey (key : String) : String :=
  if key.data.all validHeaderFieldByte then String.mk (canonicalKeyAux true key.data) else key

/-- The scheme before `://`. -/
def takeScheme : List Char → List Char → Option (List Char × List Char)
  | [], _ => none
  | ':' :: '/' :: '/' :: rest, acc => if acc = [] then none else some (acc.reverse, rest)
  | c :: rest, acc => if c.isAlphanum then takeScheme rest (c :: acc) else none

def parseURL (s : String) : Option URL :=
  if s.data.any (fun c => decide (c.toNat < 32) || decide (c.toNat = 127) || c = ' ') then none
  else
    let p1 := s.data.span (fun c => c ≠ '#')
    let p2 := p1.1.span (fun c => c ≠ '?')
    match takeScheme p2.1 [] with
    | some (scheme, rest) =>
      let p3 := rest.span (fun c => c ≠ '/')
      some ⟨String.mk scheme, String.mk p3.1, String.mk p3.2, String.mk (p2.2.drop 1),
        String.mk (p1.2.drop 1)⟩
    | none => some ⟨"", "", String.mk p2.1, String.mk (p2.2.drop 1), String.mk (p1.2.drop 1)⟩

/-- The path up to its last slash. -/
def dirOf (path : String) : String :=
  String.mk (path.data.reverse.dropWhile (fun c => c ≠ '/')).reverse

def resolveReference (base ref : URL) : URL :=
  if ref.Scheme ≠ "" then ref
  else if ref.Host ≠ "" then { ref with Scheme := base.Scheme }
  else if ref.Path = "" then
    { base with
      RawQuery := if ref.RawQuery = "" then base.RawQuery else ref.RawQuery
      Fragment := ref.Fragment }
  else if ref.Path.data.head? = some '/' then
    { ref with Scheme := base.Scheme, Host := base.Host }
  else { ref with Scheme := base.Scheme, Host := base.Host, Path := dirOf base.Path ++ ref.Path }

def urlString (u : URL) : String :=
  (if u.Scheme = "" then "" else u.Scheme ++ ":") ++
  (if u.Host = "" then "" else "//" ++ u.Host) ++ u.Path ++
  (if u.RawQuery = "" then "" else "?" ++ u.RawQuery) ++
  (if u.Fragment = "" then "" else "#" ++ u.Fragment)

/-- The characters of a JSON string without escapes, after its opening quote. -/
def jsonPlainString : List Char → List Char → Option (List Char × List Char)
  | [], _ => none
  | '"' :: rest, acc => some (acc.reverse, rest)
  | '\\' :: _, _ => none
  | c :: rest, acc => jsonPlainString rest (c :: acc)

/-- The strings of a JSON array of plain strings, after its opening bracket. -/
def jsonStrings : Nat → List Char → List String → Option (List String)
  | 0, _, _ => none
  | _ + 1, [']'], acc => some acc
  | fuel + 1, ' ' :: rest, acc => jsonStrings fuel rest acc
  | fuel + 1, ',' :: rest, acc => jsonStrings fuel rest acc
  | fuel + 1, '"' :: rest, acc =>
    match jsonPlainString rest [] with
    | some (str, rest2) => jsonStrings fuel rest2 (acc ++ [String.mk str])
    | none => none
  | _ + 1, _, _ => none

def unmarshalStrings (b : String) : List String :=
  match b.data with
  | '[' :: rest => (jsonStrings (rest.length + 1) rest []).getD []
  | _ => []

@[reducible]
def refLib : Lib :=
  { Regexp := RE
    Compile := RE.compile
    FindStringSubmatch := RE.find
    CanonicalMIMEHeaderKey := canonicalKey
    Parse := parseURL
    ResolveReference := resolveReference
    URLString := urlString
    UnmarshalStrings := unmarshalStrings }

/-! ## Statement helpers and sample data -/

/-- The technology `t` without the rules whose pattern does not compile. -/
def removeUncompilable (lib : Lib) (t : technology) : technology :=
  { t with
    Headers := t.Headers.filter (fun kv => (lib.Compile kv.2).isSome)
    Cookies := t.Cookies.filter (fun kv => (lib.Compile kv.2).isSome)
    Scripts := t.Scripts.filter (fun m => (lib.Compile m).isSome)
    JS := t.JS.filter (fun kv => (lib.Compile kv.2).isSome)
    HTML := t.HTML.filter (fun m => (lib.Compile m).isSome)
    CSS := t.CSS.filter (fun m => (lib.Compile m).isSome) }

/-- Some match family of `t` matches the response. -/
def fires (lib : Lib) (t : technology) (response : Response) : Prop :=
  matchHeaders lib t.Headers response.Headers = true ∨
  matchCookies lib t.Cookies response.Cookies = true ∨
  matchSlice lib t.Scripts response.ScriptLinks = true ∨
  matchSlice lib (getValues t.JS) response.Scripts = true ∨
  matchSingle lib t.HTML response.HTML = true ∨
  matchSlice lib t.CSS response.Styles = true

/-- The union of two results, set by set. -/
def Result.merge (a b : Result) : Result :=
  { DetectedTechnologies := a.DetectedTechnologies ∪ b.DetectedTechnologies
    Categories := a.Categories ∪ b.Categories
    Implies := a.Implies ∪ b.Implies
    Excludes := a.Excludes ∪ b.Excludes }

/-- The aggregate after `Analyze` took the responses of `rs` one after the
other, starting from the empty aggregate of `NewWebAnalyzer`. -/
def feed (lib : Lib) (data : technologyPrints) (rs : List Response) : Aggregate :=
  rs.foldl (Analyze lib data) (fun _ => none)

/-- The state `st2` of a link extraction comes from `st1` by marking URLs
visited and appending links that are in scope for `startURL`; the other
fields of the crawler are those of `st1`. -/
def LinksStep (startURL : URL) (st1 st2 : concurrentCrawler × List URL) : Prop :=
  st2.1.followExternalLinks = st1.1.followExternalLinks ∧
  st2.1.semaphore = st1.1.semaphore ∧
  st2.1.maxGoroutines = st1.1.maxGoroutines ∧
  st2.1.pendingLinks = st1.1.pendingLinks ∧
  st1.1.visited ⊆ st2.1.visited ∧
  ∀ u ∈ st2.2, u ∈ st1.2 ∨ st1.1.followExternalLinks = true ∨ u.Host = startURL.Host

/-- The links of `st2` are those of `st1` followed by URLs that were not
visited in `st1`, each once, and the visited set of `st2` is that of `st1`
with these URLs added. -/
def FreshLinks (st1 st2 : concurrentCrawler × List URL) : Prop :=
  ∃ new : List URL, st2.2 = st1.2 ++ new ∧ new.Nodup ∧
    (∀ u ∈ new, u ∉ st1.1.visited) ∧ st2.1.visited = st1.1.visited ∪ new.toFinset

/-- The invariant of a run that does not follow external links. -/
def InScope (r : Run) : Prop :=
  r.c.followExternalLinks = false ∧
  (∀ l ∈ r.c.pendingLinks.waiting, l.currentLink.Host = l.startURL.Host) ∧
  (∀ l ∈ r.c.pendingLinks.sent, l.currentLink.Host = l.startURL.Host) ∧
  (∀ R ∈ r.delivered, R.URL.Host = R.StartURL.Host)

def sampleTechnology : technology :=
  { Cats := [22]
    Description := "web server"
    Cookies := [("PHPSESSID", ""), ("sid", "(?<=foo)bar")]
    Headers := [("X-Old", "(?<=foo)bar"), ("Server", "nginx/([0-9.]+)")]
    Website := "https://nginx.org"
    JS := [("jQuery.fn.jquery", ""), ("ngx", "(?!x)y")]
    HTML := ["(?<=foo)bar", "<meta name=generator>"]
    Scripts := ["nginx\\.js"]
    Excludes := ["Apache"]
    Implies := ["Lua"]
    CSS := [] }

def sampleData : technologyPrints :=
  { Categories := [("22", ⟨"Web servers"⟩)]
    Technologies := [("Nginx", sampleTechnology), ("Other", { sampleTechnology with Headers := [] })] }

def sampleURL : URL := ⟨"http", "a.test", "/", "", ""⟩

def sampleResponse : Response :=
  { body := none
    StartURL := sampleURL
    URL := sampleURL
    HTML := ""
    Headers := [("Server", ["nginx/1.18.0"])]
    Cookies := [⟨"PHPSESSID", "abc", "/", ""⟩]
    ScriptLinks := []
    Scripts := ["x"]
    Styles := [] }

/-- A technology without a rule. -/
def blankTechnology : technology :=
  { Cats := []
    Description := ""
    Cookies := []
    Headers := []
    Website := ""
    JS := []
    HTML := []
    Scripts := []
    Excludes := []
    Implies := []
    CSS := [] }

/-- A technology whose one rule is a `js` entry with the empty value. -/
def jsOnlyTechnology : technology :=
  { blankTechnology with JS := [("jQuery.fn.jquery", "")] }

def jsOnlyData : technologyPrints :=
  { Categories := []
    Technologies := [("jQuery", jsOnlyTechnology)] }

def jsOnlyResponse : Response :=
  { body := none
    StartURL := sampleURL
    URL := sampleURL
    HTML := ""
    Headers := []
    Cookies := []
    ScriptLinks := []
    Scripts := ["x"]
    Styles := [] }

/-- One technology for each of the four slice families. -/
def familyData : technologyPrints :=
  { Categories := []
    Technologies :=
      [("ByScript", { blankTechnology with Scripts := ["jquery"] }),
       ("ByJS", { blankTechnology with JS := [("ng", ""), ("angular", "angular")] }),
       ("ByHTML", { blankTechnology with HTML := ["<meta name=generator>"] }),
       ("ByCSS", { blankTechnology with CSS := ["bootstrap"] })] }

def familyResponse : Response :=
  { body := none
    StartURL := sampleURL
    URL := sampleURL
    HTML := "<html><meta name=generator></html>"
    Headers := []
    Cookies := []
    ScriptLinks := ["/js/jquery.min.js"]
    Scripts := ["var angular = 1"]
    Styles := ["a.bootstrap"] }

def samplePage : Node :=
  .mk .DocumentNode "" []
    [.mk .ElementNode "html" []
      [.mk .ElementNode "body" []
        [.mk .ElementNode "a" [⟨"href", "http://a.test/"⟩] [.mk .TextNode "home" [] []],
         .mk .ElementNode "a" [⟨"class", "nav"⟩, ⟨"href", "/x"⟩] [],
         .mk .ElementNode "a" [⟨"href", "http://b.test/y"⟩] []]]]

/-- Every URL serves `samplePage`. -/
def sampleWorld : World :=
  ⟨fun _ => some ⟨[("Server", ["nginx/1.18.0"])], [], some samplePage, some "", some ""⟩⟩

/-- Every `http.Get` fails. -/
def deadWorld : World := ⟨fun _ => none⟩

/-! # Theorems -/

set_option maxRecDepth 100000

/-! ## The matchers -/

theorem found_iff (lib : Lib) (re : lib.Regexp) (val : String) :
    found lib re val = true ↔ 0 < (lib.FindStringSubmatch re val).length := by
  simp [found]

theorem matchSlice_iff (lib : Lib) (toMatch values : List String) :
    matchSlice lib toMatch values = true ↔
      ∃ m ∈ toMatch, ∃ re, lib.Compile m = some re ∧
        ∃ val ∈ values, found lib re val = true := by
  induction toMatch with
  | nil => simp [matchSlice]
  | cons m rest ih =>
    rw [matchSlice]
    cases hc : lib.Compile m with
    | none => simp [ih, hc]
    | some re =>
      by_cases hany : values.any (fun val => found lib re val) = true
      · simp only [hany, if_true, true_iff]
        refine ⟨m, List.mem_cons_self _ _, re, hc, ?_⟩
        simpa [List.any_eq_true] using hany
      · simp only [hany, ih, List.mem_cons, exists_eq_or_imp, hc, Option.some.injEq,
          exists_eq_left', false_or, Bool.false_eq_true, if_false]
        have : ¬ ∃ val ∈ values, found lib re val = true := by
          simpa [List.any_eq_true] using hany
        simp [this]

theorem matchHeaders_iff (lib : Lib) (toMatch : List (String × String)) (h : Header) :
    matchHeaders lib toMatch h = true ↔
      ∃ kv ∈ toMatch, Header.Values lib h kv.1 ≠ [] ∧
        (kv.2 = "" ∨ ∃ re, lib.Compile kv.2 = some re ∧
          ∃ val ∈ Header.Values lib h kv.1, found lib re val = true) := by
  induction toMatch with
  | nil => simp [matchHeaders]
  | cons kv rest ih =>
    obtain ⟨k, v⟩ := kv
    rw [matchHeaders]
    simp only [List.mem_cons, exists_eq_or_imp]
    by_cases hv : Header.Values lib h k = []
    · simp [hv, ih]
    · have hlen : 0 < (Header.Values lib h k).length := List.length_pos.mpr hv
      simp only [hlen, if_true]
      by_cases he : v = ""
      · simp [he, hv]
      · simp only [he, if_false, false_or, ne_eq, hv, not_false_eq_true, true_and]
        cases hc : lib.Compile v with
        | none => simp [ih]
        | some re =>
          by_cases hany : (Header.Values lib h k).any (fun val => found lib re val) = true
          · simp only [hany, if_true, true_iff]
            left
            exact ⟨re, rfl, by simpa [List.any_eq_true] using hany⟩
          · have : ¬ ∃ val ∈ Header.Values lib h k, found lib re val = true := by
              simpa [List.any_eq_true] using hany
            simp [hany, ih, this]

theorem matchCookies_iff (lib : Lib) (toMatch : List (String × String)) (c : List Cookie) :
    matchCookies lib toMatch c = true ↔
      ∃ cookie ∈ c, ∃ val, toMatch.lookup cookie.Name = some val ∧
        (val = "" ∨ ∃ re, lib.Compile val = some re ∧ found lib re cookie.Name = true) := by
  induction c with
  | nil => simp [matchCookies]
  | cons cookie rest ih =>
    rw [matchCookies]
    simp only [List.mem_cons, exists_eq_or_imp]
    cases hl : toMatch.lookup cookie.Name with
    | none => simp [ih]
    | some val =>
      by_cases he : val = ""
      · simp [he]
      · simp only [he, if_false, Option.some.injEq, exists_eq_left', false_or]
        cases hc : lib.Compile val with
        | none => simp [ih]
        | some re =>
          by_cases hf : found lib re cookie.Name = true
          · simp [hf]
          · simp [hf, ih]

/-- C2: `matchHeaders` is true exactly when some rule `(name, pattern)` of
the map has at least one value under `name` in the header set and either
`pattern` is empty or `pattern` compiles and the regex matches one of the
values under `name`. In particular an empty pattern matches on the presence
of the header alone, and, whenever the pattern `nginx/([0-9.]+)` compiles to
a regex that matches `nginx/1.18.0` and not `apache`, a header set whose
value is `nginx/1.18.0` matches and one whose value is `apache` does not. -/
theorem matchHeaders_spec (lib : Lib) :
    (∀ (toMatch : List (String × String)) (h : Header),
      matchHeaders lib toMatch h = true ↔
        ∃ kv ∈ toMatch, Header.Values lib h kv.1 ≠ [] ∧
          (kv.2 = "" ∨ ∃ re, lib.Compile kv.2 = some re ∧
            ∃ val ∈ Header.Values lib h kv.1,
              0 < (lib.FindStringSubmatch re val).length)) ∧
    (∀ (name : String) (h : Header), Header.Values lib h name ≠ [] →
      matchHeaders lib [(name, "")] h = true) ∧
    (∀ (re : lib.Regexp) (name : String) (h1 h2 : Header),
      lib.Compile "nginx/([0-9.]+)" = some re →
      0 < (lib.FindStringSubmatch re "nginx/1.18.0").length →
      (lib.FindStringSubmatch re "apache").length = 0 →
      Header.Values lib h1 name = ["nginx/1.18.0"] →
      Header.Values lib h2 name = ["apache"] →
      matchHeaders lib [(name, "nginx/([0-9.]+)")] h1 = true ∧
      matchHeaders lib [(name, "nginx/([0-9.]+)")] h2 = false) := by
  refine ⟨fun toMatch h => ?_, fun name h hv => ?_, ?_⟩
  · simp only [matchHeaders_iff, found_iff]
  · rw [matchHeaders_iff]
    exact ⟨(name, ""), List.mem_singleton.mpr rfl, hv, Or.inl rfl⟩
  · intro re name h1 h2 hc hm hn hv1 hv2
    constructor
    · rw [matchHeaders_iff]
      refine ⟨(name, _), List.mem_singleton.mpr rfl, by simp [hv1], Or.inr ⟨re, hc, ?_⟩⟩
      simp [hv1, found_iff, hm]
    · rw [← Bool.not_eq_true, matchHeaders_iff]
      rintro ⟨kv, hkv, -, hor⟩
      rw [List.mem_singleton] at hkv
      subst hkv
      rcases hor with he | ⟨re2, hc2, val, hval, hf⟩
      · exact absurd he (by simp)
      · simp only [hc, Option.some.injEq] at hc2
        subst hc2
        simp only [hv2, List.mem_singleton] at hval
        subst hval
        rw [found_iff] at hf
        omega

/-- The two header scenarios of the specification, on the executable instance. -/
theorem matchHeaders_spec_witness :
    matchHeaders refLib [("X-Powered-By", "")] [("X-Powered-By", ["whatever"])] = true ∧
    matchHeaders refLib [("Server", "nginx/([0-9.]+)")] [("Server", ["nginx/1.18.0"])] = true ∧
    matchHeaders refLib [("Server", "nginx/([0-9.]+)")] [("Server", ["apache"])] = false :=
  ⟨(matchHeaders_spec refLib).2.1 "X-Powered-By" [("X-Powered-By", ["whatever"])] (by decide),
   (matchHeaders_spec refLib).2.2
    ((RE.compile "nginx/([0-9.]+)").get (by decide)) "Server"
    [("Server", ["nginx/1.18.0"])] [("Server", ["apache"])]
    (Option.some_get _).symm (by decide) (by decide) (by decide) (by decide)⟩



/-- C9: `matchCookies` is true exactly when some response cookie has an
entry under its name in the rule map whose pattern is empty, or whose pattern
compiles and matches the name of the cookie; so two cookie lists with the
same sequence of names give the same result, whatever the values. -/
theorem matchCookies_spec (lib : Lib) (toMatch : List (String × String))
    (c c' : List Cookie) (hnames : c.map Cookie.Name = c'.map Cookie.Name) :
    (matchCookies lib toMatch c = true ↔
      ∃ cookie ∈ c, ∃ pattern, toMatch.lookup cookie.Name = some pattern ∧
        (pattern = "" ∨ ∃ re, lib.Compile pattern = some re ∧
          0 < (lib.FindStringSubmatch re cookie.Name).length)) ∧
    matchCookies lib toMatch c = matchCookies lib toMatch c' := by
  have key : ∀ l : List Cookie, matchCookies lib toMatch l = true ↔
      ∃ n ∈ l.map Cookie.Name, ∃ val, toMatch.lookup n = some val ∧
        (val = "" ∨ ∃ re, lib.Compile val = some re ∧ found lib re n = true) := by
    intro l
    rw [matchCookies_iff]
    simp only [List.mem_map, exists_exists_and_eq_and]
  refine ⟨?_, ?_⟩
  · simp only [matchCookies_iff, found_iff]
  · rw [Bool.eq_iff_iff, key c, key c', hnames]

/-- Two cookies of the same name and different values match alike; the pattern
is tried on the name. -/
theorem matchCookies_spec_witness :
    matchCookies refLib [("PHPSESSID", "SESS")] [⟨"PHPSESSID", "abc", "/", ""⟩] = true ∧
    matchCookies refLib [("PHPSESSID", "SESS")] [⟨"PHPSESSID", "abc", "/", ""⟩] =
      matchCookies refLib [("PHPSESSID", "SESS")] [⟨"PHPSESSID", "other", "", "a.test"⟩] :=
  ⟨by decide,
   (matchCookies_spec refLib [("PHPSESSID", "SESS")] [⟨"PHPSESSID", "abc", "/", ""⟩]
    [⟨"PHPSESSID", "other", "", "a.test"⟩] (by decide)).2⟩

/-- C8, as amended: the js family fires exactly when some non-empty value of
`t.JS` compiles and the regex matches an element of `response.Scripts`; the
keys play no role, two mappings with the same values give the same result. -/
theorem jsFamily_spec (lib : Lib) (t t' : technology) (response : Response)
    (hvalues : ∀ v, v ∈ t.JS.map Prod.snd ↔ v ∈ t'.JS.map Prod.snd) :
    (matchSlice lib (getValues t.JS) response.Scripts = true ↔
      ∃ v ∈ t.JS.map Prod.snd, v ≠ "" ∧ ∃ re, lib.Compile v = some re ∧
        ∃ script ∈ response.Scripts, 0 < (lib.FindStringSubmatch re script).length) ∧
    matchSlice lib (getValues t.JS) response.Scripts =
      matchSlice lib (getValues t'.JS) response.Scripts := by
  have key : ∀ js : List (String × String),
      matchSlice lib (getValues js) response.Scripts = true ↔
      ∃ v ∈ js.map Prod.snd, v ≠ "" ∧ ∃ re, lib.Compile v = some re ∧
        ∃ script ∈ response.Scripts, 0 < (lib.FindStringSubmatch re script).length := by
    intro js
    rw [matchSlice_iff]
    simp only [getValues, List.mem_filter, decide_eq_true_eq, found_iff, and_assoc]
  refine ⟨key t.JS, ?_⟩
  rw [Bool.eq_iff_iff, key, key]
  simp only [hvalues]

/-- Two `js` mappings with the same values under different keys. -/
theorem jsFamily_spec_witness :
    matchSlice refLib (getValues [("a", "jquery"), ("b", "")]) ["x", "jquery 3"] = true ∧
    matchSlice refLib (getValues [("a", "jquery"), ("b", "")]) ["x", "jquery 3"] =
      matchSlice refLib (getValues [("window.z", ""), ("q", "jquery")]) ["x", "jquery 3"] :=
  ⟨by decide,
   (jsFamily_spec refLib { sampleTechnology with JS := [("a", "jquery"), ("b", "")] }
    { sampleTechnology with JS := [("window.z", ""), ("q", "jquery")] }
    { sampleResponse with Scripts := ["x", "jquery 3"] }
    (by intro v; simp only [List.map, List.mem_cons, List.mem_singleton, List.not_mem_nil]; tauto)).2⟩

/-- C8 as stated fails: the empty value of `jQuery.fn.jquery` compiles and
matches the script body `x`, yet the js family does not fire. -/
theorem jsFamily_empty_value_counterexample :
    (∃ v ∈ [("jQuery.fn.jquery", "")].map Prod.snd, ∃ re, refLib.Compile v = some re ∧
      ∃ script ∈ ["x"], 0 < (refLib.FindStringSubmatch re script).length) ∧
    matchSlice refLib (getValues [("jQuery.fn.jquery", "")]) ["x"] = false :=
  ⟨⟨"", by decide, (RE.compile "").get (by decide), (Option.some_get _).symm, "x",
    by decide, by decide⟩, by decide⟩


/-! ## Patterns that do not compile -/

theorem matchSlice_filter (lib : Lib) (toMatch values : List String) :
    matchSlice lib (toMatch.filter (fun m => (lib.Compile m).isSome)) values =
      matchSlice lib toMatch values := by
  rw [Bool.eq_iff_iff, matchSlice_iff, matchSlice_iff]
  constructor
  · rintro ⟨m, hm, rest⟩
    exact ⟨m, (List.mem_filter.mp hm).1, rest⟩
  · rintro ⟨m, hm, re, hc, rest⟩
    exact ⟨m, List.mem_filter.mpr ⟨hm, by simp [hc]⟩, re, hc, rest⟩

theorem matchSlice_uncompilable (lib : Lib) (toMatch values : List String)
    (h : ∀ m ∈ toMatch, lib.Compile m = none) : matchSlice lib toMatch values = false := by
  rw [← Bool.not_eq_true, matchSlice_iff]
  rintro ⟨m, hm, re, hc, -⟩
  rw [h m hm] at hc
  exact Option.noConfusion hc

theorem matchHeaders_filter (lib : Lib) (toMatch : List (String × String)) (h : Header)
    (hempty : (lib.Compile "").isSome = true) :
    matchHeaders lib (toMatch.filter (fun kv => (lib.Compile kv.2).isSome)) h =
      matchHeaders lib toMatch h := by
  rw [Bool.eq_iff_iff, matchHeaders_iff, matchHeaders_iff]
  constructor
  · rintro ⟨kv, hkv, rest⟩
    exact ⟨kv, (List.mem_filter.mp hkv).1, rest⟩
  · rintro ⟨kv, hkv, hv, hor⟩
    refine ⟨kv, List.mem_filter.mpr ⟨hkv, ?_⟩, hv, hor⟩
    rcases hor with he | ⟨re, hc, -⟩
    · rw [he]; exact hempty
    · simp [hc]

theorem matchHeaders_uncompilable (lib : Lib) (toMatch : List (String × String)) (h : Header)
    (hempty : (lib.Compile "").isSome = true)
    (hall : ∀ kv ∈ toMatch, lib.Compile kv.2 = none) : matchHeaders lib toMatch h = false := by
  rw [← Bool.not_eq_true, matchHeaders_iff]
  rintro ⟨kv, hkv, -, hor⟩
  have hn := hall kv hkv
  rcases hor with he | ⟨re, hc, -⟩
  · rw [he] at hn; simp [hn] at hempty
  · rw [hn] at hc; exact Option.noConfusion hc

theorem lookup_eq_none_of_not_mem (l : List (String × String)) (k : String)
    (h : k ∉ l.map Prod.fst) : l.lookup k = none := by
  induction l with
  | nil => rfl
  | cons kv rest ih =>
    obtain ⟨k', v⟩ := kv
    simp only [List.map_cons, List.mem_cons, not_or] at h
    have hne : (k == k') = false := by simpa using h.1
    simp only [List.lookup, hne]
    exact ih h.2

theorem lookup_mem (l : List (String × String)) (k v : String)
    (h : l.lookup k = some v) : (k, v) ∈ l := by
  induction l with
  | nil => simp at h
  | cons kv rest ih =>
    obtain ⟨k', v'⟩ := kv
    by_cases hk : k = k'
    · subst hk
      simp only [List.lookup, beq_self_eq_true, Option.some.injEq] at h
      subst h
      exact List.mem_cons_self _ _
    · have hne : (k == k') = false := by simpa using hk
      simp only [List.lookup, hne] at h
      exact List.mem_cons_of_mem _ (ih h)

theorem lookup_filter (l : List (String × String)) (q : String → Bool) (k : String)
    (hkeys : (l.map Prod.fst).Nodup) :
    (l.filter (fun kv => q kv.2)).lookup k = (l.lookup k).filter q := by
  induction l with
  | nil => rfl
  | cons kv rest ih =>
    obtain ⟨k', v⟩ := kv
    simp only [List.map_cons, List.nodup_cons] at hkeys
    by_cases hk : k = k'
    · subst hk
      have hrest : rest.lookup k = none := lookup_eq_none_of_not_mem rest k hkeys.1
      by_cases hq : q v = true
      · simp [List.filter, hq, List.lookup, Option.filter]
      · have hq' : q v = false := by simpa using hq
        simp [List.filter, hq', List.lookup, Option.filter, ih hkeys.2, hrest]
    · have hne : (k == k') = false := by simpa using hk
      by_cases hq : q v = true
      · simp [List.filter, hq, List.lookup, hne, ih hkeys.2]
      · have hq' : q v = false := by simpa using hq
        simp [List.filter, hq', List.lookup, hne, ih hkeys.2]

theorem matchCookies_filter (lib : Lib) (toMatch : List (String × String)) (c : List Cookie)
    (hempty : (lib.Compile "").isSome = true) (hkeys : (toMatch.map Prod.fst).Nodup) :
    matchCookies lib (toMatch.filter (fun kv => (lib.Compile kv.2).isSome)) c =
      matchCookies lib toMatch c := by
  rw [Bool.eq_iff_iff, matchCookies_iff, matchCookies_iff]
  have hl := fun k => lookup_filter toMatch (fun v => (lib.Compile v).isSome) k hkeys
  constructor
  · rintro ⟨cookie, hc, val, hval, hor⟩
    rw [hl] at hval
    refine ⟨cookie, hc, val, ?_, hor⟩
    cases hlk : toMatch.lookup cookie.Name with
    | none => rw [hlk] at hval; simp [Option.filter] at hval
    | some v =>
      rw [hlk] at hval
      simp only [Option.filter] at hval
      split at hval
      · exact hval
      · exact Option.noConfusion hval
  · rintro ⟨cookie, hc, val, hval, hor⟩
    refine ⟨cookie, hc, val, ?_, hor⟩
    rw [hl, hval]
    have : (lib.Compile val).isSome = true := by
      rcases hor with he | ⟨re, hcr, -⟩
      · rw [he]; exact hempty
      · simp [hcr]
    simp [Option.filter, this]

theorem matchCookies_uncompilable (lib : Lib) (toMatch : List (String × String))
    (c : List Cookie) (hempty : (lib.Compile "").isSome = true)
    (hall : ∀ kv ∈ toMatch, lib.Compile kv.2 = none) : matchCookies lib toMatch c = false := by
  rw [← Bool.not_eq_true, matchCookies_iff]
  rintro ⟨cookie, -, val, hval, hor⟩
  have hn := hall _ (lookup_mem toMatch _ _ hval)
  rcases hor with he | ⟨re, hc, -⟩
  · rw [he] at hn; simp [hn] at hempty
  · rw [hn] at hc; exact Option.noConfusion hc

theorem getValues_filter (lib : Lib) (m : List (String × String)) :
    getValues (m.filter (fun kv => (lib.Compile kv.2).isSome)) =
      (getValues m).filter (fun v => (lib.Compile v).isSome) := by
  simp only [getValues, List.filter_map, List.filter_filter]
  congr 1
  apply List.filter_congr
  intro x _
  simp [Bool.and_comm]

/-- C4: provided the empty pattern compiles (it does for `regexp`) and the
keys of `t.Cookies` are distinct (they are in a Go map), removing every rule
whose pattern does not compile from the headers, cookies, scripts, js, html
and css of `t` changes the result of none of the six matchers, nor what the
loop of `analyzeSingle` does for `t`; and a family all of whose patterns do
not compile returns false. The matchers are total functions to `Bool`: they
return, and without an error. -/
theorem uncompilable_rules_skipped (lib : Lib) (data : technologyPrints) (name : String)
    (t : technology) (response : Response) (res : Result)
    (hempty : (lib.Compile "").isSome = true)
    (hkeys : (t.Cookies.map Prod.fst).Nodup) :
    (matchHeaders lib (removeUncompilable lib t).Headers response.Headers =
        matchHeaders lib t.Headers response.Headers ∧
      matchCookies lib (removeUncompilable lib t).Cookies response.Cookies =
        matchCookies lib t.Cookies response.Cookies ∧
      matchSlice lib (removeUncompilable lib t).Scripts response.ScriptLinks =
        matchSlice lib t.Scripts response.ScriptLinks ∧
      matchSlice lib (getValues (removeUncompilable lib t).JS) response.Scripts =
        matchSlice lib (getValues t.JS) response.Scripts ∧
      matchSingle lib (removeUncompilable lib t).HTML response.HTML =
        matchSingle lib t.HTML response.HTML ∧
      matchSlice lib (removeUncompilable lib t).CSS response.Styles =
        matchSlice lib t.CSS response.Styles) ∧
    analyzeTechnology lib data response res name (removeUncompilable lib t) =
      analyzeTechnology lib data response res name t ∧
    ((∀ kv ∈ t.Headers, lib.Compile kv.2 = none) →
      matchHeaders lib t.Headers response.Headers = false) ∧
    ((∀ kv ∈ t.Cookies, lib.Compile kv.2 = none) →
      matchCookies lib t.Cookies response.Cookies = false) ∧
    ((∀ kv ∈ t.JS, lib.Compile kv.2 = none) →
      matchSlice lib (getValues t.JS) response.Scripts = false) ∧
    (∀ toMatch values : List String, (∀ m ∈ toMatch, lib.Compile m = none) →
      matchSlice lib toMatch values = false ∧
      ∀ value, matchSingle lib toMatch value = false) := by
  have h1 : matchHeaders lib (removeUncompilable lib t).Headers response.Headers =
      matchHeaders lib t.Headers response.Headers :=
    matchHeaders_filter lib t.Headers response.Headers hempty
  have h2 : matchCookies lib (removeUncompilable lib t).Cookies response.Cookies =
      matchCookies lib t.Cookies response.Cookies :=
    matchCookies_filter lib t.Cookies response.Cookies hempty hkeys
  have h3 : matchSlice lib (removeUncompilable lib t).Scripts response.ScriptLinks =
      matchSlice lib t.Scripts response.ScriptLinks :=
    matchSlice_filter lib t.Scripts response.ScriptLinks
  have h4 : matchSlice lib (getValues (removeUncompilable lib t).JS) response.Scripts =
      matchSlice lib (getValues t.JS) response.Scripts := by
    show matchSlice lib (getValues (t.JS.filter _)) _ = _
    rw [getValues_filter, matchSlice_filter]
  have h5 : matchSingle lib (removeUncompilable lib t).HTML response.HTML =
      matchSingle lib t.HTML response.HTML := matchSlice_filter lib t.HTML [response.HTML]
  have h6 : matchSlice lib (removeUncompilable lib t).CSS response.Styles =
      matchSlice lib t.CSS response.Styles := matchSlice_filter lib t.CSS response.Styles
  refine ⟨⟨h1, h2, h3, h4, h5, h6⟩, ?_, ?_, ?_, ?_, ?_⟩
  · have ha : ∀ r, addToResult data name (removeUncompilable lib t) r =
        addToResult data name t r := fun _ => rfl
    unfold analyzeTechnology
    rw [h1, h2, h3, h4, h5, h6, ha]
  · exact matchHeaders_uncompilable lib _ _ hempty
  · exact matchCookies_uncompilable lib _ _ hempty
  · intro hall
    apply matchSlice_uncompilable
    intro m hm
    simp only [getValues, List.mem_filter, List.mem_map] at hm
    obtain ⟨⟨kv, hkv, rfl⟩, -⟩ := hm
    exact hall kv hkv
  · intro toMatch values hall
    exact ⟨matchSlice_uncompilable lib _ _ hall, fun value =>
      matchSlice_uncompilable lib _ _ hall⟩

/-- The lookbehind pattern does not compile; the rule after it in the same
technology is still tried and matches. -/
theorem uncompilable_rules_skipped_witness :
    (refLib.Compile "(?<=foo)bar" = none ∧
      matchHeaders refLib sampleTechnology.Headers sampleResponse.Headers = true ∧
      matchHeaders refLib [("Server", "(?<=foo)bar")] sampleResponse.Headers = false) ∧
    analyzeTechnology refLib sampleData sampleResponse Result.empty "Nginx"
        (removeUncompilable refLib sampleTechnology) =
      analyzeTechnology refLib sampleData sampleResponse Result.empty "Nginx"
        sampleTechnology :=
  ⟨⟨by decide, by decide, by decide⟩,
   (uncompilable_rules_skipped refLib sampleData "Nginx" sampleTechnology sampleResponse
    Result.empty (by decide) (by decide)).2.1⟩


/-! ## analyzeSingle -/

theorem analyzeTechnology_eq (lib : Lib) (data : technologyPrints) (response : Response)
    (res : Result) (name : String) (t : technology) :
    (fires lib t response → analyzeTechnology lib data response res name t =
      addToResult data name t res) ∧
    (¬ fires lib t response → analyzeTechnology lib data response res name t = res) := by
  unfold analyzeTechnology fires
  by_cases h1 : matchHeaders lib t.Headers response.Headers = true
  · simp [h1]
  by_cases h2 : matchCookies lib t.Cookies response.Cookies = true
  · simp [h1, h2]
  by_cases h3 : matchSlice lib t.Scripts response.ScriptLinks = true
  · simp [h1, h2, h3]
  by_cases h4 : matchSlice lib (getValues t.JS) response.Scripts = true
  · simp [h1, h2, h3, h4]
  by_cases h5 : matchSingle lib t.HTML response.HTML = true
  · simp [h1, h2, h3, h4, h5]
  by_cases h6 : matchSlice lib t.CSS response.Styles = true
  · simp [h1, h2, h3, h4, h5, h6]
  · simp [h1, h2, h3, h4, h5, h6]

theorem foldl_detected (lib : Lib) (data : technologyPrints) (response : Response)
    (l : List (String × technology)) (res : Result) (d : DetectedTechnology) :
    d ∈ (l.foldl (fun res nt => analyzeTechnology lib data response res nt.1 nt.2)
        res).DetectedTechnologies ↔
      d ∈ res.DetectedTechnologies ∨
      ∃ nt ∈ l, d = ⟨nt.1, nt.2.Description, nt.2.Website⟩ ∧ fires lib nt.2 response := by
  induction l generalizing res with
  | nil => simp
  | cons nt rest ih =>
    rw [List.foldl_cons, ih]
    simp only [List.mem_cons, exists_eq_or_imp]
    by_cases h : fires lib nt.2 response
    · rw [(analyzeTechnology_eq lib data response res nt.1 nt.2).1 h]
      simp only [addToResult, Finset.mem_insert, h, and_true]
      tauto
    · rw [(analyzeTechnology_eq lib data response res nt.1 nt.2).2 h]
      simp only [h, and_false, false_or]

theorem value_unique (l : List (String × technology)) (k : String) (a b : technology)
    (hkeys : (l.map Prod.fst).Nodup) (ha : (k, a) ∈ l) (hb : (k, b) ∈ l) : a = b := by
  induction l with
  | nil => simp at ha
  | cons kv rest ih =>
    simp only [List.map_cons, List.nodup_cons] at hkeys
    have hnot : ∀ x, (k, x) ∈ rest → kv.1 ≠ k := by
      intro x hx he
      exact hkeys.1 (List.mem_map.mpr ⟨(k, x), hx, he.symm⟩)
    rcases List.mem_cons.mp ha with ha | ha <;> rcases List.mem_cons.mp hb with hb | hb
    · rw [← ha] at hb; exact (Prod.mk.inj hb).2.symm
    · exact absurd (by rw [← ha]) (hnot b hb)
    · exact absurd (by rw [← hb]) (hnot a ha)
    · exact ih hkeys.2 ha hb

/-- The six match families, rule by rule: what `fires` says of the rules of
`t` and the signals of the response. -/
theorem fires_iff (lib : Lib) (t : technology) (response : Response) :
    fires lib t response ↔
      ((∃ kv ∈ t.Headers, Header.Values lib response.Headers kv.1 ≠ [] ∧
          (kv.2 = "" ∨ ∃ re, lib.Compile kv.2 = some re ∧
            ∃ val ∈ Header.Values lib response.Headers kv.1,
              0 < (lib.FindStringSubmatch re val).length)) ∨
        (∃ cookie ∈ response.Cookies, ∃ pattern,
          t.Cookies.lookup cookie.Name = some pattern ∧
            (pattern = "" ∨ ∃ re, lib.Compile pattern = some re ∧
              0 < (lib.FindStringSubmatch re cookie.Name).length)) ∨
        (∃ m ∈ t.Scripts, ∃ re, lib.Compile m = some re ∧
          ∃ val ∈ response.ScriptLinks, 0 < (lib.FindStringSubmatch re val).length) ∨
        (∃ v ∈ t.JS.map Prod.snd, v ≠ "" ∧ ∃ re, lib.Compile v = some re ∧
          ∃ script ∈ response.Scripts, 0 < (lib.FindStringSubmatch re script).length) ∨
        (∃ m ∈ t.HTML, ∃ re, lib.Compile m = some re ∧
          0 < (lib.FindStringSubmatch re response.HTML).length) ∨
        (∃ m ∈ t.CSS, ∃ re, lib.Compile m = some re ∧
          ∃ val ∈ response.Styles, 0 < (lib.FindStringSubmatch re val).length)) := by
  unfold fires matchSingle
  rw [matchHeaders_iff, matchCookies_iff, matchSlice_iff, matchSlice_iff, matchSlice_iff,
    matchSlice_iff]
  simp only [found_iff, getValues, List.mem_filter, decide_eq_true_eq, and_assoc,
    List.mem_singleton, exists_eq_left]

/-- C1, as amended: for a catalog with distinct names and a technology `t`
listed under `name`, the entry of `t` is in `DetectedTechnologies` of
`analyzeSingle` exactly when one of the six match families matches the
response: a header rule, a cookie rule, a `scripts` pattern on a script
link, a non-empty `js` value on a script body, an `html` pattern on the HTML
text or a `css` pattern on a stylesheet body. The entry is then the one
entry of that name: the technology is recorded exactly once, however many
families match. -/
theorem analyzeSingle_detects (lib : Lib) (data : technologyPrints) (response : Response)
    (name : String) (t : technology)
    (hkeys : (data.Technologies.map Prod.fst).Nodup)
    (hmem : (name, t) ∈ data.Technologies) :
    (⟨name, t.Description, t.Website⟩ ∈
        (analyzeSingle lib data response).DetectedTechnologies ↔
      ((∃ kv ∈ t.Headers, Header.Values lib response.Headers kv.1 ≠ [] ∧
          (kv.2 = "" ∨ ∃ re, lib.Compile kv.2 = some re ∧
            ∃ val ∈ Header.Values lib response.Headers kv.1,
              0 < (lib.FindStringSubmatch re val).length)) ∨
        (∃ cookie ∈ response.Cookies, ∃ pattern,
          t.Cookies.lookup cookie.Name = some pattern ∧
            (pattern = "" ∨ ∃ re, lib.Compile pattern = some re ∧
              0 < (lib.FindStringSubmatch re cookie.Name).length)) ∨
        (∃ m ∈ t.Scripts, ∃ re, lib.Compile m = some re ∧
          ∃ val ∈ response.ScriptLinks, 0 < (lib.FindStringSubmatch re val).length) ∨
        (∃ v ∈ t.JS.map Prod.snd, v ≠ "" ∧ ∃ re, lib.Compile v = some re ∧
          ∃ script ∈ response.Scripts, 0 < (lib.FindStringSubmatch re script).length) ∨
        (∃ m ∈ t.HTML, ∃ re, lib.Compile m = some re ∧
          0 < (lib.FindStringSubmatch re response.HTML).length) ∨
        (∃ m ∈ t.CSS, ∃ re, lib.Compile m = some re ∧
          ∃ val ∈ response.Styles, 0 < (lib.FindStringSubmatch re val).length))) ∧
    (⟨name, t.Description, t.Website⟩ ∈
        (analyzeSingle lib data response).DetectedTechnologies →
      (analyzeSingle lib data response).DetectedTechnologies.filter
          (fun d => d.Name = name) = {⟨name, t.Description, t.Website⟩} ∧
      ((analyzeSingle lib data response).DetectedTechnologies.filter
          (fun d => d.Name = name)).card = 1) := by
  have hchar : ∀ d : DetectedTechnology, d.Name = name →
      (d ∈ (analyzeSingle lib data response).DetectedTechnologies ↔
        d = ⟨name, t.Description, t.Website⟩ ∧ fires lib t response) := by
    intro d hd
    unfold analyzeSingle
    rw [foldl_detected]
    simp only [Result.empty, Finset.not_mem_empty, false_or]
    constructor
    · rintro ⟨nt, hnt, hdeq, hm⟩
      have hn : nt.1 = name := by rw [← hd, hdeq]
      have ht : nt.2 = t := by
        apply value_unique data.Technologies name _ _ hkeys _ hmem
        rw [← hn]; exact hnt
      rw [hn, ht] at hdeq
      rw [ht] at hm
      exact ⟨hdeq, hm⟩
    · rintro ⟨hdeq, hm⟩
      exact ⟨(name, t), hmem, hdeq, hm⟩
  constructor
  · rw [hchar _ rfl, fires_iff]
    simp only [true_and]
  · intro hin
    have hfilter : (analyzeSingle lib data response).DetectedTechnologies.filter
        (fun d => d.Name = name) = {⟨name, t.Description, t.Website⟩} := by
      ext d
      simp only [Finset.mem_filter, Finset.mem_singleton]
      constructor
      · rintro ⟨hd, hn⟩
        exact ((hchar d hn).mp hd).1
      · intro hd
        subst hd
        exact ⟨hin, rfl⟩
    exact ⟨hfilter, by rw [hfilter, Finset.card_singleton]⟩

/-- Each of the four slice families, by itself, records its technology: a
`scripts` pattern on a script link, a non-empty `js` value on a script body,
an `html` pattern on the HTML text, a `css` pattern on a stylesheet body. A
technology that both the header family and the cookie family match has one
entry. -/
theorem analyzeSingle_detects_witness :
    (⟨"ByScript", "", ""⟩ ∈
        (analyzeSingle refLib familyData familyResponse).DetectedTechnologies ∧
      ⟨"ByJS", "", ""⟩ ∈
        (analyzeSingle refLib familyData familyResponse).DetectedTechnologies ∧
      ⟨"ByHTML", "", ""⟩ ∈
        (analyzeSingle refLib familyData familyResponse).DetectedTechnologies ∧
      ⟨"ByCSS", "", ""⟩ ∈
        (analyzeSingle refLib familyData familyResponse).DetectedTechnologies) ∧
    ((matchHeaders refLib sampleTechnology.Headers sampleResponse.Headers = true ∧
        matchCookies refLib sampleTechnology.Cookies sampleResponse.Cookies = true) ∧
      ((analyzeSingle refLib sampleData sampleResponse).DetectedTechnologies.filter
        (fun d => d.Name = "Nginx")).card = 1) :=
  ⟨⟨(analyzeSingle_detects refLib familyData familyResponse "ByScript"
        { blankTechnology with Scripts := ["jquery"] } (by decide)
        (by simp [familyData])).1.mpr
      (Or.inr (Or.inr (Or.inl ⟨"jquery", by decide, (RE.compile "jquery").get (by decide),
        (Option.some_get _).symm, "/js/jquery.min.js", by decide, by decide⟩))),
    (analyzeSingle_detects refLib familyData familyResponse "ByJS"
        { blankTechnology with JS := [("ng", ""), ("angular", "angular")] } (by decide)
        (by simp [familyData])).1.mpr
      (Or.inr (Or.inr (Or.inr (Or.inl ⟨"angular", by decide, by decide,
        (RE.compile "angular").get (by decide), (Option.some_get _).symm,
        "var angular = 1", by decide, by decide⟩)))),
    (analyzeSingle_detects refLib familyData familyResponse "ByHTML"
        { blankTechnology with HTML := ["<meta name=generator>"] } (by decide)
        (by simp [familyData])).1.mpr
      (Or.inr (Or.inr (Or.inr (Or.inr (Or.inl ⟨"<meta name=generator>", by decide,
        (RE.compile "<meta name=generator>").get (by decide), (Option.some_get _).symm,
        by decide⟩))))),
    (analyzeSingle_detects refLib familyData familyResponse "ByCSS"
        { blankTechnology with CSS := ["bootstrap"] } (by decide)
        (by simp [familyData])).1.mpr
      (Or.inr (Or.inr (Or.inr (Or.inr (Or.inr ⟨"bootstrap", by decide,
        (RE.compile "bootstrap").get (by decide), (Option.some_get _).symm,
        "a.bootstrap", by decide, by decide⟩)))))⟩,
   ⟨by decide, by decide⟩,
   ((analyzeSingle_detects refLib sampleData sampleResponse "Nginx" sampleTechnology
      (by decide) (List.mem_cons_self _ _)).2
    ((analyzeSingle_detects refLib sampleData sampleResponse "Nginx" sampleTechnology
      (by decide) (List.mem_cons_self _ _)).1.mpr
      (Or.inl ⟨("Server", "nginx/([0-9.]+)"), by decide, by decide,
        Or.inr ⟨(RE.compile "nginx/([0-9.]+)").get (by decide), (Option.some_get _).symm,
          "nginx/1.18.0", by decide, by decide⟩⟩))).2⟩

/-- C1 as stated fails: the one `js` value of the technology, the empty
pattern, compiles and matches the script body `x`, so the js values match the
scripts as slice patterns; yet `analyzeSingle` records nothing, `getValues`
having dropped the empty value. -/
theorem analyzeSingle_empty_js_counterexample :
    (("jQuery", jsOnlyTechnology) ∈ jsOnlyData.Technologies ∧
      (∃ v ∈ jsOnlyTechnology.JS.map Prod.snd, ∃ re, refLib.Compile v = some re ∧
        ∃ script ∈ jsOnlyResponse.Scripts,
          0 < (refLib.FindStringSubmatch re script).length) ∧
      matchSlice refLib (jsOnlyTechnology.JS.map Prod.snd) jsOnlyResponse.Scripts = true) ∧
    (analyzeSingle refLib jsOnlyData jsOnlyResponse).DetectedTechnologies = ∅ :=
  ⟨⟨List.mem_cons_self _ _,
    ⟨"", by decide, (RE.compile "").get (by decide), (Option.some_get _).symm, "x",
      by decide, by decide⟩, by decide⟩, by decide⟩


/-! ## The aggregate -/

theorem Analyze_apply (lib : Lib) (data : technologyPrints) (agg : Aggregate) (r : Response)
    (key : String) :
    Analyze lib data agg r key =
      if key = lib.URLString r.StartURL then
        some (((agg key).getD Result.empty).merge (analyzeSingle lib data r))
      else agg key := by
  unfold Analyze addToFinalResult
  by_cases h : key = lib.URLString r.StartURL
  · subst h
    simp [Function.update_same, Result.merge]
  · simp [Function.update_noteq h, h]

theorem merge_idem (a b : Result) : (a.merge b).merge b = a.merge b := by
  ext x <;> simp [Result.merge, or_assoc]

theorem foldl_Analyze_isSome (lib : Lib) (data : technologyPrints) (rs : List Response)
    (agg : Aggregate) (key : String) :
    (rs.foldl (Analyze lib data) agg key).isSome = true ↔
      (agg key).isSome = true ∨ ∃ r ∈ rs, lib.URLString r.StartURL = key := by
  induction rs generalizing agg with
  | nil => simp
  | cons r rest ih =>
    rw [List.foldl_cons, ih, Analyze_apply]
    simp only [List.mem_cons, exists_eq_or_imp]
    by_cases h : key = lib.URLString r.StartURL
    · simp [h]
    · have h' : ¬ lib.URLString r.StartURL = key := fun e => h e.symm
      simp [h, h']

/-- What one of the four sets of a result holds after the responses of `rs`. -/
theorem foldl_Analyze_mem {α : Type} [DecidableEq α] (proj : Result → Finset α)
    (hproj : ∀ a b, proj (a.merge b) = proj a ∪ proj b)
    (lib : Lib) (data : technologyPrints) (rs : List Response)
    (agg : Aggregate) (key : String) (x : α) :
    x ∈ proj ((rs.foldl (Analyze lib data) agg key).getD Result.empty) ↔
      x ∈ proj ((agg key).getD Result.empty) ∨
      ∃ r ∈ rs, lib.URLString r.StartURL = key ∧ x ∈ proj (analyzeSingle lib data r) := by
  induction rs generalizing agg with
  | nil => simp
  | cons r rest ih =>
    rw [List.foldl_cons, ih, Analyze_apply]
    simp only [List.mem_cons, exists_eq_or_imp]
    by_cases h : key = lib.URLString r.StartURL
    · simp only [h, if_true, Option.getD_some, hproj, Finset.mem_union, true_and, or_assoc]
    · have h' : ¬ lib.URLString r.StartURL = key := fun e => h e.symm
      simp only [h, if_false, h', false_and, false_or]

theorem option_eq_of (o o' : Option Result) (hs : o.isSome = true ↔ o'.isSome = true)
    (hd : o.getD Result.empty = o'.getD Result.empty) : o = o' := by
  cases o <;> cases o' <;> simp_all

theorem feed_congr (lib : Lib) (data : technologyPrints) (rs rs' : List Response)
    (hsame : ∀ r, r ∈ rs ↔ r ∈ rs') : feed lib data rs = feed lib data rs' := by
  funext key
  unfold feed
  apply option_eq_of
  · rw [foldl_Analyze_isSome, foldl_Analyze_isSome]
    simp only [hsame]
  · ext x
    · rw [foldl_Analyze_mem Result.DetectedTechnologies (fun _ _ => rfl),
        foldl_Analyze_mem Result.DetectedTechnologies (fun _ _ => rfl)]
      simp only [hsame]
    · rw [foldl_Analyze_mem Result.Implies (fun _ _ => rfl),
        foldl_Analyze_mem Result.Implies (fun _ _ => rfl)]
      simp only [hsame]
    · rw [foldl_Analyze_mem Result.Excludes (fun _ _ => rfl),
        foldl_Analyze_mem Result.Excludes (fun _ _ => rfl)]
      simp only [hsame]
    · rw [foldl_Analyze_mem Result.Categories (fun _ _ => rfl),
        foldl_Analyze_mem Result.Categories (fun _ _ => rfl)]
      simp only [hsame]

theorem Analyze_idem (lib : Lib) (data : technologyPrints) (agg : Aggregate) (r : Response) :
    Analyze lib data (Analyze lib data agg r) r = Analyze lib data agg r := by
  funext key
  rw [Analyze_apply, Analyze_apply]
  by_cases h : key = lib.URLString r.StartURL
  · simp [h, merge_idem]
  · simp [h]

/-- C5: starting from the empty aggregate, two sequences of responses with
the same members (a reordering, with or without repetitions) leave the same
aggregate; it has an entry for a key exactly when some response carries that
seed, and each of the four sets of the entry is the union of the sets of
`analyzeSingle` over the responses with that seed. Feeding a response a
second time changes nothing. -/
theorem Analyze_order_independent (lib : Lib) (data : technologyPrints)
    (rs rs' : List Response) (hsame : ∀ r, r ∈ rs ↔ r ∈ rs') :
    feed lib data rs = feed lib data rs' ∧
    (∀ key : String,
      (feed lib data rs key = none ↔ ∀ r ∈ rs, lib.URLString r.StartURL ≠ key) ∧
      ∀ res, feed lib data rs key = some res →
        (∀ x, x ∈ res.DetectedTechnologies ↔ ∃ r ∈ rs, lib.URLString r.StartURL = key ∧
          x ∈ (analyzeSingle lib data r).DetectedTechnologies) ∧
        (∀ x, x ∈ res.Implies ↔ ∃ r ∈ rs, lib.URLString r.StartURL = key ∧
          x ∈ (analyzeSingle lib data r).Implies) ∧
        (∀ x, x ∈ res.Excludes ↔ ∃ r ∈ rs, lib.URLString r.StartURL = key ∧
          x ∈ (analyzeSingle lib data r).Excludes) ∧
        (∀ x, x ∈ res.Categories ↔ ∃ r ∈ rs, lib.URLString r.StartURL = key ∧
          x ∈ (analyzeSingle lib data r).Categories)) ∧
    (∀ (agg : Aggregate) (r : Response),
      Analyze lib data (Analyze lib data agg r) r = Analyze lib data agg r) := by
  refine ⟨feed_congr lib data rs rs' hsame, fun key => ⟨?_, fun res hres => ?_⟩,
    Analyze_idem lib data⟩
  · have h := foldl_Analyze_isSome lib data rs (fun _ => none) key
    rw [← Option.not_isSome_iff_eq_none]
    unfold feed
    rw [h]
    simp
  · have hget : res = (feed lib data rs key).getD Result.empty := by rw [hres]; rfl
    have hd := foldl_Analyze_mem Result.DetectedTechnologies (fun _ _ => rfl) lib data rs
      (fun _ => none) key
    have hi := foldl_Analyze_mem Result.Implies (fun _ _ => rfl) lib data rs
      (fun _ => none) key
    have he := foldl_Analyze_mem Result.Excludes (fun _ _ => rfl) lib data rs
      (fun _ => none) key
    have hc := foldl_Analyze_mem Result.Categories (fun _ _ => rfl) lib data rs
      (fun _ => none) key
    simp only [Option.getD_none, Result.empty, Finset.not_mem_empty, false_or] at hd hi he hc
    subst hget
    exact ⟨hd, hi, he, hc⟩

/-- A sequence with a repetition and a reordering of its members. -/
theorem Analyze_order_independent_witness :
    feed refLib sampleData
        [sampleResponse, { sampleResponse with Headers := [] }, sampleResponse] =
      feed refLib sampleData [{ sampleResponse with Headers := [] }, sampleResponse] :=
  (Analyze_order_independent refLib sampleData
    [sampleResponse, { sampleResponse with Headers := [] }, sampleResponse]
    [{ sampleResponse with Headers := [] }, sampleResponse]
    (by intro r; simp only [List.mem_cons, List.mem_singleton, List.not_mem_nil]; tauto)).1


/-! ## The crawler -/

theorem LinksStep_refl (startURL : URL) (st : concurrentCrawler × List URL) :
    LinksStep startURL st st :=
  ⟨rfl, rfl, rfl, rfl, Finset.Subset.refl _, fun _ hu => Or.inl hu⟩

theorem LinksStep_trans {startURL : URL} {st1 st2 st3 : concurrentCrawler × List URL}
    (h12 : LinksStep startURL st1 st2) (h23 : LinksStep startURL st2 st3) :
    LinksStep startURL st1 st3 := by
  obtain ⟨a1, a2, a3, a4, a5, a6⟩ := h12
  obtain ⟨b1, b2, b3, b4, b5, b6⟩ := h23
  refine ⟨b1.trans a1, b2.trans a2, b3.trans a3, b4.trans a4, a5.trans b5, fun u hu => ?_⟩
  rcases b6 u hu with h | h | h
  · exact a6 u h
  · exact Or.inr (Or.inl (a1 ▸ h))
  · exact Or.inr (Or.inr h)

theorem addIfUnvisited_step (startURL : URL) (c : concurrentCrawler) (l : URL)
    (links : List URL) (hl : c.followExternalLinks = true ∨ l.Host = startURL.Host) :
    LinksStep startURL (c, links) (addIfUnvisited c l links) := by
  unfold addIfUnvisited
  split
  · refine ⟨rfl, rfl, rfl, rfl, Finset.subset_insert _ _, fun u hu => ?_⟩
    rcases List.mem_append.mp hu with h | h
    · exact Or.inl h
    · rw [List.mem_singleton] at h
      subst h
      exact Or.inr hl
  · exact LinksStep_refl _ _

theorem getLinksAttr_step (lib : Lib) (baseURL startURL : URL) (attr : List Attribute)
    (st : concurrentCrawler × List URL) :
    LinksStep startURL st (getLinksAttr lib baseURL startURL attr st) := by
  induction attr generalizing st with
  | nil => exact LinksStep_refl _ _
  | cons a rest ih =>
    rw [getLinksAttr]
    by_cases hk : a.Key = "href"
    · simp only [hk, if_true]
      cases hp : lib.Parse a.Val with
      | none => exact LinksStep_refl _ _
      | some link =>
        dsimp only
        generalize (if link.Host = "" then lib.ResolveReference baseURL link else link) = x
        by_cases hscope : (st.1.followExternalLinks || decide (x.Host = startURL.Host)) = true
        · rw [if_pos hscope]
          refine LinksStep_trans (addIfUnvisited_step startURL st.1 x st.2 ?_) (ih _)
          simpa using hscope
        · rw [if_neg hscope]
          exact ih _
    · simp only [hk, if_false]
      exact ih _

mutual
theorem getLinksNode_step (lib : Lib) (baseURL startURL : URL) :
    ∀ (n : Node) (st : concurrentCrawler × List URL),
      LinksStep startURL st (getLinksNode lib baseURL startURL n st)
  | .mk ty data attr children, st => by
    rw [getLinksNode]
    refine LinksStep_trans ?_ (getLinksChildren_step lib baseURL startURL children _)
    split
    · exact getLinksAttr_step lib baseURL startURL attr st
    · exact LinksStep_refl _ _
theorem getLinksChildren_step (lib : Lib) (baseURL startURL : URL) :
    ∀ (l : List Node) (st : concurrentCrawler × List URL),
      LinksStep startURL st (getLinksChildren lib baseURL startURL l st)
  | [], st => by
    rw [getLinksChildren]
    exact LinksStep_refl _ _
  | ch :: rest, st => by
    rw [getLinksChildren]
    exact LinksStep_trans (getLinksNode_step lib baseURL startURL ch st)
      (getLinksChildren_step lib baseURL startURL rest _)
end

theorem getLinks_step (lib : Lib) (c : concurrentCrawler) (links : List URL)
    (n : Option Node) (baseURL startURL : URL) :
    LinksStep startURL (c, links) (getLinks lib c links n baseURL startURL) := by
  cases n with
  | none => exact LinksStep_refl _ _
  | some n => exact getLinksNode_step lib baseURL startURL n (c, links)

theorem sendLinks_spec (c : concurrentCrawler) (startURL : URL) (links : List URL) :
    (sendLinks c startURL links).followExternalLinks = c.followExternalLinks ∧
    (sendLinks c startURL links).semaphore = c.semaphore ∧
    (sendLinks c startURL links).maxGoroutines = c.maxGoroutines ∧
    (sendLinks c startURL links).visited = c.visited ∧
    (sendLinks c startURL links).pendingLinks.waiting =
      c.pendingLinks.waiting ++ links.map (fun li => ⟨li, startURL⟩) ∧
    (sendLinks c startURL links).pendingLinks.sent =
      c.pendingLinks.sent ++ links.map (fun li => ⟨li, startURL⟩) := by
  induction links generalizing c with
  | nil => simp [sendLinks]
  | cons li rest ih =>
    rw [sendLinks]
    obtain ⟨h1, h2, h3, h4, h5, h6⟩ := ih { c with pendingLinks := c.pendingLinks.send ⟨li, startURL⟩ }
    refine ⟨h1, h2, h3, h4, ?_, ?_⟩
    · rw [h5]; simp [Chan.send]
    · rw [h6]; simp [Chan.send]

theorem parse_urls (lib : Lib) (w : World) (link : crawledLink) (r : Response)
    (h : parse lib w link = some r) : r.URL = link.currentLink ∧ r.StartURL = link.startURL := by
  unfold parse at h
  split at h
  · exact Option.noConfusion h
  · split at h
    · exact Option.noConfusion h
    · split at h
      · exact Option.noConfusion h
      · simp only [Option.some.injEq] at h
        subst h
        exact ⟨rfl, rfl⟩

/-- What `crawlLink` does to the crawler, on its two paths. -/
theorem crawlLink_spec (lib : Lib) (w : World) (c : concurrentCrawler) (link : crawledLink) :
    (parse lib w link = none →
      crawlLink lib w c link = ({ c with semaphore := c.semaphore + 1 }, none)) ∧
    (∀ r, parse lib w link = some r →
      (crawlLink lib w c link).2 = some r ∧
      (crawlLink lib w c link).1.semaphore = c.semaphore ∧
      (crawlLink lib w c link).1.maxGoroutines = c.maxGoroutines ∧
      (crawlLink lib w c link).1.followExternalLinks = c.followExternalLinks ∧
      c.visited ⊆ (crawlLink lib w c link).1.visited ∧
      ∃ links : List URL,
        (∀ u ∈ links, c.followExternalLinks = true ∨ u.Host = link.startURL.Host) ∧
        (crawlLink lib w c link).1.pendingLinks.waiting =
          c.pendingLinks.waiting ++ links.map (fun li => ⟨li, link.startURL⟩) ∧
        (crawlLink lib w c link).1.pendingLinks.sent =
          c.pendingLinks.sent ++ links.map (fun li => ⟨li, link.startURL⟩)) := by
  constructor
  · intro h
    simp only [crawlLink, h]
  · intro r h
    obtain ⟨-, hstart⟩ := parse_urls lib w link r h
    have hstep := getLinks_step lib { c with semaphore := c.semaphore + 1 } [] r.body r.URL
      r.StartURL
    obtain ⟨g1, g2, g3, g4, g5, g6⟩ := hstep
    obtain ⟨s1, s2, s3, s4, s5, s6⟩ := sendLinks_spec
      (getLinks lib { c with semaphore := c.semaphore + 1 } [] r.body r.URL r.StartURL).1
      link.startURL
      (getLinks lib { c with semaphore := c.semaphore + 1 } [] r.body r.URL r.StartURL).2
    have hcl : crawlLink lib w c link =
        ({ sendLinks
            (getLinks lib { c with semaphore := c.semaphore + 1 } [] r.body r.URL r.StartURL).1
            link.startURL
            (getLinks lib { c with semaphore := c.semaphore + 1 } [] r.body r.URL r.StartURL).2
          with semaphore := (sendLinks
            (getLinks lib { c with semaphore := c.semaphore + 1 } [] r.body r.URL r.StartURL).1
            link.startURL
            (getLinks lib { c with semaphore := c.semaphore + 1 } [] r.body r.URL
              r.StartURL).2).semaphore - 1 }, some r) := by
      simp only [crawlLink, h]
    rw [hcl]
    refine ⟨rfl, ?_, ?_, ?_, ?_,
      (getLinks lib { c with semaphore := c.semaphore + 1 } [] r.body r.URL r.StartURL).2,
      ?_, ?_, ?_⟩
    · show (sendLinks _ _ _).semaphore - 1 = _
      rw [s2, g2]
      simp
    · show (sendLinks _ _ _).maxGoroutines = _
      rw [s3, g3]
    · show (sendLinks _ _ _).followExternalLinks = _
      rw [s1, g1]
    · show _ ⊆ (sendLinks _ _ _).visited
      rw [s4]
      exact g5
    · intro u hu
      rcases g6 u hu with h0 | h0 | h0
      · simp at h0
      · exact Or.inl h0
      · exact Or.inr (hstart ▸ h0)
    · show (sendLinks _ _ _).pendingLinks.waiting = _
      rw [s5, g4]
    · show (sendLinks _ _ _).pendingLinks.sent = _
      rw [s6, g4]


theorem FreshLinks_refl (st : concurrentCrawler × List URL) : FreshLinks st st :=
  ⟨[], by simp, List.nodup_nil, by simp, by simp⟩

theorem FreshLinks_trans {st1 st2 st3 : concurrentCrawler × List URL}
    (h12 : FreshLinks st1 st2) (h23 : FreshLinks st2 st3) : FreshLinks st1 st3 := by
  obtain ⟨n1, a1, a2, a3, a4⟩ := h12
  obtain ⟨n2, b1, b2, b3, b4⟩ := h23
  refine ⟨n1 ++ n2, ?_, ?_, ?_, ?_⟩
  · rw [b1, a1, List.append_assoc]
  · refine List.nodup_append.mpr ⟨a2, b2, ?_⟩
    intro u hu1 hu2
    apply b3 u hu2
    rw [a4]
    exact Finset.mem_union_right _ (List.mem_toFinset.mpr hu1)
  · intro u hu
    rcases List.mem_append.mp hu with h | h
    · exact a3 u h
    · intro hv
      apply b3 u h
      rw [a4]
      exact Finset.mem_union_left _ hv
  · rw [b4, a4, List.toFinset_append, Finset.union_assoc]

theorem addIfUnvisited_fresh (c : concurrentCrawler) (l : URL) (links : List URL) :
    FreshLinks (c, links) (addIfUnvisited c l links) := by
  unfold addIfUnvisited
  by_cases hv : IsVisited c l = true
  · simp only [hv, Bool.not_true, Bool.false_eq_true, if_false]
    exact FreshLinks_refl _
  · have hv' : IsVisited c l = false := by simpa using hv
    simp only [hv', Bool.not_false, if_true]
    refine ⟨[l], rfl, List.nodup_singleton l, ?_, ?_⟩
    · intro u hu
      rw [List.mem_singleton] at hu
      subst hu
      simpa [IsVisited] using hv'
    · ext u
      simp [or_comm]

theorem getLinksAttr_fresh (lib : Lib) (baseURL startURL : URL) (attr : List Attribute)
    (st : concurrentCrawler × List URL) :
    FreshLinks st (getLinksAttr lib baseURL startURL attr st) := by
  induction attr generalizing st with
  | nil => exact FreshLinks_refl _
  | cons a rest ih =>
    rw [getLinksAttr]
    by_cases hk : a.Key = "href"
    · simp only [hk, if_true]
      cases hp : lib.Parse a.Val with
      | none => exact FreshLinks_refl _
      | some link =>
        dsimp only
        generalize (if link.Host = "" then lib.ResolveReference baseURL link else link) = x
        by_cases hscope : (st.1.followExternalLinks || decide (x.Host = startURL.Host)) = true
        · rw [if_pos hscope]
          exact FreshLinks_trans (addIfUnvisited_fresh st.1 x st.2) (ih _)
        · rw [if_neg hscope]
          exact ih _
    · simp only [hk, if_false]
      exact ih _

mutual
theorem getLinksNode_fresh (lib : Lib) (baseURL startURL : URL) :
    ∀ (n : Node) (st : concurrentCrawler × List URL),
      FreshLinks st (getLinksNode lib baseURL startURL n st)
  | .mk ty data attr children, st => by
    rw [getLinksNode]
    refine FreshLinks_trans ?_ (getLinksChildren_fresh lib baseURL startURL children _)
    split
    · exact getLinksAttr_fresh lib baseURL startURL attr st
    · exact FreshLinks_refl _
theorem getLinksChildren_fresh (lib : Lib) (baseURL startURL : URL) :
    ∀ (l : List Node) (st : concurrentCrawler × List URL),
      FreshLinks st (getLinksChildren lib baseURL startURL l st)
  | [], st => by
    rw [getLinksChildren]
    exact FreshLinks_refl _
  | ch :: rest, st => by
    rw [getLinksChildren]
    exact FreshLinks_trans (getLinksNode_fresh lib baseURL startURL ch st)
      (getLinksChildren_fresh lib baseURL startURL rest _)
end

theorem getLinks_fresh (lib : Lib) (c : concurrentCrawler) (n : Option Node)
    (baseURL startURL : URL) :
    (getLinks lib c [] n baseURL startURL).2.Nodup ∧
    ∀ u ∈ (getLinks lib c [] n baseURL startURL).2,
      u ∉ c.visited ∧ u ∈ (getLinks lib c [] n baseURL startURL).1.visited := by
  have h : FreshLinks (c, []) (getLinks lib c [] n baseURL startURL) := by
    cases n with
    | none => exact FreshLinks_refl _
    | some n => exact getLinksNode_fresh lib baseURL startURL n (c, [])
  obtain ⟨new, h1, h2, h3, h4⟩ := h
  rw [List.nil_append] at h1
  rw [h1, h4]
  exact ⟨h2, fun u hu => ⟨h3 u hu, Finset.mem_union_right _ (List.mem_toFinset.mpr hu)⟩⟩


theorem injectSeed_inScope (lib : Lib) (r : Run) (h : InScope r) :
    InScope (injectSeed lib r) := by
  obtain ⟨h1, h2, h3, h4⟩ := h
  unfold injectSeed
  split
  · exact ⟨h1, h2, h3, h4⟩
  · split
    · refine ⟨h1, ?_, ?_, h4⟩
      · intro l hl
        rcases List.mem_append.mp hl with hl | hl
        · exact h2 l hl
        · rw [List.mem_singleton] at hl
          rw [hl]
      · intro l hl
        rcases List.mem_append.mp hl with hl | hl
        · exact h3 l hl
        · rw [List.mem_singleton] at hl
          rw [hl]
    · exact ⟨h1, h2, h3, h4⟩

theorem dispatch_eq (lib : Lib) (r : Run) (i : Nat) (w : World) (l : crawledLink)
    (hget : r.c.pendingLinks.waiting.get? i = some l)
    (hfree : r.c.semaphore < r.c.maxGoroutines) :
    dispatch lib r i w =
      ⟨(crawlLink lib w ⟨r.c.semaphore, r.c.maxGoroutines, r.c.visited,
          r.c.pendingLinks.receive i, r.c.followExternalLinks⟩ l).1, r.urls,
        r.delivered ++ (crawlLink lib w ⟨r.c.semaphore, r.c.maxGoroutines, r.c.visited,
          r.c.pendingLinks.receive i, r.c.followExternalLinks⟩ l).2.toList⟩ := by
  simp only [dispatch, hget, hfree, if_true]

theorem dispatch_inScope (lib : Lib) (r : Run) (i : Nat) (w : World) (h : InScope r) :
    InScope (dispatch lib r i w) := by
  obtain ⟨h1, h2, h3, h4⟩ := h
  cases hget : r.c.pendingLinks.waiting.get? i with
  | none =>
    have : dispatch lib r i w = r := by simp only [dispatch, hget]
    rw [this]
    exact ⟨h1, h2, h3, h4⟩
  | some l =>
    by_cases hfree : r.c.semaphore < r.c.maxGoroutines
    · rw [dispatch_eq lib r i w l hget hfree]
      have hl : l.currentLink.Host = l.startURL.Host := h2 l (List.get?_mem hget)
      generalize hc : (⟨r.c.semaphore, r.c.maxGoroutines, r.c.visited,
          r.c.pendingLinks.receive i, r.c.followExternalLinks⟩ : concurrentCrawler) = c
      have e1 : c.followExternalLinks = false := by rw [← hc]; exact h1
      have hw : ∀ l' ∈ c.pendingLinks.waiting, l'.currentLink.Host = l'.startURL.Host := by
        rw [← hc]
        exact fun l' hl' => h2 l' (List.mem_of_mem_eraseIdx hl')
      have hs : ∀ l' ∈ c.pendingLinks.sent, l'.currentLink.Host = l'.startURL.Host := by
        rw [← hc]
        exact h3
      obtain ⟨herr, hok⟩ := crawlLink_spec lib w c l
      cases hp : parse lib w l with
      | none =>
        rw [herr hp]
        exact ⟨e1, hw, hs, by simpa using h4⟩
      | some resp =>
        obtain ⟨k1, -, -, k4, -, links, k6, k7, k8⟩ := hok resp hp
        obtain ⟨hu, hst⟩ := parse_urls lib w l resp hp
        have hnew : ∀ l' ∈ links.map (fun li => (⟨li, l.startURL⟩ : crawledLink)),
            l'.currentLink.Host = l'.startURL.Host := by
          intro l' hl'
          obtain ⟨u, hu', rfl⟩ := List.mem_map.mp hl'
          rcases k6 u hu' with hf | hf
          · rw [e1] at hf
            exact Bool.noConfusion hf
          · exact hf
        refine ⟨k4.trans e1, ?_, ?_, ?_⟩
        · intro l' hl'
          rw [k7] at hl'
          rcases List.mem_append.mp hl' with hl' | hl'
          · exact hw l' hl'
          · exact hnew l' hl'
        · intro l' hl'
          rw [k8] at hl'
          rcases List.mem_append.mp hl' with hl' | hl'
          · exact hs l' hl'
          · exact hnew l' hl'
        · intro R hR
          rw [k1] at hR
          rcases List.mem_append.mp hR with hR | hR
          · exact h4 R hR
          · simp only [Option.toList, List.mem_singleton] at hR
            rw [hR, hu, hst]
            exact hl
    · have : dispatch lib r i w = r := by simp only [dispatch, hget, hfree, if_false]
      rw [this]
      exact ⟨h1, h2, h3, h4⟩

theorem Crawl_inScope (lib : Lib) (schedule : List Event) (r : Run) (h : InScope r) :
    InScope (schedule.foldl (step lib) r) := by
  induction schedule generalizing r with
  | nil => exact h
  | cons e rest ih =>
    rw [List.foldl_cons]
    apply ih
    cases e with
    | seed => exact injectSeed_inScope lib r h
    | crawl i w => exact dispatch_inScope lib r i w h

/-- C7: with `followExternalLinks` false, every URL `getLinks` returns has
the host of `startURL`; hence in every run of `Crawl` every value sent on
`pendingLinks` has `currentLink.Host = startURL.Host`, and every response
handed to `onResp` has `URL.Host = StartURL.Host`. -/
theorem scope_invariant (lib : Lib) (maxGoroutines : Nat) (urls : List String)
    (schedule : List Event) :
    (∀ (c : concurrentCrawler) (n : Option Node) (baseURL startURL : URL),
      c.followExternalLinks = false →
      ∀ u ∈ (getLinks lib c [] n baseURL startURL).2, u.Host = startURL.Host) ∧
    (∀ l ∈ (Crawl lib (NewConcurrentCrawler maxGoroutines false) urls
        schedule).c.pendingLinks.sent, l.currentLink.Host = l.startURL.Host) ∧
    (∀ R ∈ (Crawl lib (NewConcurrentCrawler maxGoroutines false) urls schedule).delivered,
      R.URL.Host = R.StartURL.Host) := by
  have hinit : InScope ⟨NewConcurrentCrawler maxGoroutines false, urls, []⟩ :=
    ⟨rfl, by simp [NewConcurrentCrawler], by simp [NewConcurrentCrawler], by simp⟩
  obtain ⟨-, -, h3, h4⟩ := Crawl_inScope lib schedule _ hinit
  refine ⟨fun c n baseURL startURL hc u hu => ?_, h3, h4⟩
  obtain ⟨-, -, -, -, -, h6⟩ := getLinks_step lib c [] n baseURL startURL
  rcases h6 u hu with h | h | h
  · simp at h
  · rw [show c.followExternalLinks = false from hc] at h
    exact Bool.noConfusion h
  · exact h

/-- The page links to `/`, to `/x` and to another host: two pages are
fetched, both on the host of the seed. -/
theorem scope_invariant_witness :
    ((Crawl refLib (NewConcurrentCrawler 10 false) ["http://a.test/"]
        [.seed, .crawl 0 sampleWorld, .crawl 1 sampleWorld]).delivered.map
        (fun R => (R.URL.Host, R.URL.Path)) = [("a.test", "/"), ("a.test", "/x")] ∧
      (getLinks refLib (NewConcurrentCrawler 10 false) [] (some samplePage) sampleURL
        sampleURL).2 = [sampleURL, ⟨"http", "a.test", "/x", "", ""⟩]) ∧
    ∀ R ∈ (Crawl refLib (NewConcurrentCrawler 10 false) ["http://a.test/"]
        [.seed, .crawl 0 sampleWorld, .crawl 1 sampleWorld]).delivered,
      R.URL.Host = R.StartURL.Host :=
  ⟨⟨by decide, by decide⟩,
   (scope_invariant refLib 10 ["http://a.test/"]
    [.seed, .crawl 0 sampleWorld, .crawl 1 sampleWorld]).2.2⟩

/-- C6, the code at a failing input. The links `getLinks` returns are
deduplicated: none was visited before the call, each is visited after it and
none is returned twice. The seeds are not: `Crawl` sends a seed on
`pendingLinks` without marking it visited, so the visited set is empty after
the seed `http://a.test/` went out; when the page fetched for it links to
`http://a.test/`, `addIfUnvisited` lets that URL through and it is sent a
second time; and a seed listed twice is sent twice. -/
theorem seed_enqueued_twice :
    (∀ (lib : Lib) (c : concurrentCrawler) (n : Option Node) (baseURL startURL : URL),
      (getLinks lib c [] n baseURL startURL).2.Nodup ∧
      ∀ u ∈ (getLinks lib c [] n baseURL startURL).2,
        u ∉ c.visited ∧ u ∈ (getLinks lib c [] n baseURL startURL).1.visited) ∧
    ((Crawl refLib (NewConcurrentCrawler 10 false) ["http://a.test/"]
        [.seed]).c.pendingLinks.sent = [⟨sampleURL, sampleURL⟩] ∧
      (Crawl refLib (NewConcurrentCrawler 10 false) ["http://a.test/"]
        [.seed]).c.visited = ∅) ∧
    (Crawl refLib (NewConcurrentCrawler 10 false) ["http://a.test/"]
        [.seed, .crawl 0 sampleWorld]).c.pendingLinks.sent =
      [⟨sampleURL, sampleURL⟩, ⟨sampleURL, sampleURL⟩,
        ⟨⟨"http", "a.test", "/x", "", ""⟩, sampleURL⟩] ∧
    (Crawl refLib (NewConcurrentCrawler 10 false) ["http://a.test/", "http://a.test/"]
        [.seed, .seed]).c.pendingLinks.sent =
      [⟨sampleURL, sampleURL⟩, ⟨sampleURL, sampleURL⟩] :=
  ⟨getLinks_fresh, by decide, by decide, by decide⟩

/-- C10, the code at a failing input: when the fetch fails, `crawlLink`
returns with one permit more held than before the call, whereas on a
successful fetch the count is back to what it was; after two failed fetches
a crawler of capacity two holds both permits for good and a third link is
never fetched. -/
theorem crawlLink_leaks_permit (lib : Lib) (c : concurrentCrawler) (link : crawledLink) :
    ((crawlLink lib deadWorld c link).1.semaphore = c.semaphore + 1 ∧
      (crawlLink lib deadWorld c link).2 = none) ∧
    (∀ (w : World) (r : Response), parse lib w link = some r →
      (crawlLink lib w c link).1.semaphore = c.semaphore) ∧
    ((Crawl refLib (NewConcurrentCrawler 2 true)
        ["http://a.test/", "http://a.test/x", "http://a.test/y"]
        [.seed, .seed, .seed, .crawl 0 deadWorld, .crawl 0 deadWorld,
          .crawl 0 sampleWorld]).c.semaphore = 2 ∧
      (Crawl refLib (NewConcurrentCrawler 2 true)
        ["http://a.test/", "http://a.test/x", "http://a.test/y"]
        [.seed, .seed, .seed, .crawl 0 deadWorld, .crawl 0 deadWorld,
          .crawl 0 sampleWorld]).delivered.length = 0) :=
  ⟨⟨rfl, rfl⟩, fun w r h => ((crawlLink_spec lib w c link).2 r h).2.1, by decide⟩

/-- C3, the code at a failing input: given the JSON string `"foo"`,
`singleOrArray.UnmarshalJSON` stores the five characters of the fragment,
quotes included, where the array form `["foo"]` gives the three characters
`foo`; a pattern stored with its quotes no longer matches the text the
pattern without them matches. -/
theorem UnmarshalJSON_keeps_quotes (lib : Lib) :
    (singleOrArray.UnmarshalJSON lib [] "\"foo\"" = .ok ["\"foo\""] ∧
      ("\"foo\"" : String).length = 5) ∧
    singleOrArray.UnmarshalJSON refLib [] "[\"foo\"]" = .ok ["foo"] ∧
    (matchSingle refLib ["<meta name=generator>"] "<meta name=generator>" = true ∧
      matchSingle refLib ["\"<meta name=generator>\""] "<meta name=generator>" = false) :=
  ⟨⟨rfl, by decide⟩, rfl, by decide, by decide⟩

end Crawlalyzer
